import Mathlib

/-!
Verification of the sparkpelican YouTube-to-blog pipeline.

Python strings are modelled as lists of characters (`Str := List Char`); each
definition below is a direct translation of a function of the repository, with
its source location named in the doc comment.  External boundary services
(subtitle API, yt-dlp, the generative AI calls, the file system) are modelled
by explicit outcome parameters, as the spec treats them as black boxes.
-/

set_option maxHeartbeats 1000000
set_option maxRecDepth 8192

namespace Spark

abbrev Str := List Char

/-- Char list of a Lean string literal, used to transcribe Python string
constants. -/
def S (s : String) : Str := s.data

/-- Python str.strip(): remove whitespace from both ends. -/
def stripWs (l : Str) : Str :=
  ((l.dropWhile Char.isWhitespace).reverse.dropWhile Char.isWhitespace).reverse

/-- Python str.strip(chars): remove the given characters from both ends. -/
def stripChars (cs : List Char) (l : Str) : Str :=
  ((l.dropWhile (cs.contains ·)).reverse.dropWhile (cs.contains ·)).reverse

/-- Python sep.join(pieces). -/
def joinSep (sep : Str) : List Str → Str
  | [] => []
  | [l] => l
  | l :: ls => l ++ sep ++ joinSep sep ls

/-- Python s.split('\n'). -/
def splitNL : Str → List Str
  | [] => [[]]
  | c :: rest =>
    if c = '\n' then [] :: splitNL rest
    else
      match splitNL rest with
      | s :: ss => (c :: s) :: ss
      | [] => [[c]]

/-- Position of the first occurrence of `pat` in `l` (Python s.find(pat) when
the result is not -1). -/
def findSub (pat : Str) : Str → Option Nat
  | [] => if pat.isEmpty then some 0 else none
  | c :: rest =>
    if pat.isPrefixOf (c :: rest) then some 0
    else (findSub pat rest).map (· + 1)

/-- Python s.find(pat, start): first occurrence at an index ≥ start. -/
def findFrom (l pat : Str) (start : Nat) : Option Nat :=
  (findSub pat (l.drop start)).map (· + start)

/-- Python membership test `pat in s` for substrings. -/
def hasSub (pat l : Str) : Bool := (findSub pat l).isSome

/-- Python line.split(sep, 1) when `sep` occurs in the line: the pieces before
and after the first occurrence. -/
def splitFirst (sep : Char) : Str → Option (Str × Str)
  | [] => none
  | c :: rest =>
    if c = sep then some ([], rest)
    else (splitFirst sep rest).map (fun p => (c :: p.1, p.2))

/-- Python s.rfind(c): index of the last occurrence, if any (`none` models the
-1 result). -/
def rFind (c : Char) : Str → Option Nat
  | [] => none
  | a :: rest =>
    match rFind c rest with
    | some i => some (i + 1)
    | none => if a = c then some 0 else none

/-- Python s.lower() (ASCII case mapping). -/
def lowerStr (l : Str) : Str := l.map Char.toLower

/-! ### Slug derivation (spec §4.1) -/

/-- ASCII fragment of the Python regex class `\w` (word character).  The source
regexes additionally match non-ASCII word characters; the theorems below only
instantiate the slug functions at ASCII text, where the two agree. -/
def wordChar (c : Char) : Bool := c.isAlphanum || c = '_'

/-- Python re.sub(r'[\s_]+', '-', s): each maximal run of whitespace and
underscores becomes a single hyphen. -/
def collapseAux : Bool → Str → Str
  | _, [] => []
  | inRun, c :: rest =>
    if c.isWhitespace || c = '_' then
      if inRun then collapseAux true rest else '-' :: collapseAux true rest
    else c :: collapseAux false rest

/-- See `collapseAux`. -/
def collapseRuns (l : Str) : Str := collapseAux false l

/-- ContentGenerator.generate_slug (src/spark_youtube/core/ai/generator.py lines
500-510), identical to PelicanIntegrator._generate_slug
(src/spark_youtube/core/integrator/pelican.py lines 76-89): empty title gives
"untitled"; otherwise lowercase, drop characters outside word/whitespace/hyphen,
turn whitespace and underscore runs into single hyphens, trim hyphens from the
ends, truncate to 50 characters. -/
def generate_slug (title : Str) : Str :=
  if title = [] then S "untitled"
  else
    let s := lowerStr title
    let s := s.filter (fun c => wordChar c || c.isWhitespace || c = '-')
    let s := collapseRuns s
    let s := stripChars ['-'] s
    s.take 50

/-- Modelled from the spec: the third-party `slugify` library called by
AIGenerator.generate_post_async (src/ai/ai_generator.py line 86) is not part of
this repository; spec §4.1 describes the cleaning as lower-case, strip
characters outside word/whitespace/hyphen, collapse whitespace and underscore
runs into single hyphens, and trim leading and trailing hyphens. -/
def slugifyModel (t : Str) : Str :=
  stripChars ['-']
    (collapseRuns ((lowerStr t).filter (fun c => wordChar c || c.isWhitespace || c = '-')))

/-- AIGenerator.generate_post_async slug derivation (src/ai/ai_generator.py
lines 85-92): slugify the title, truncate to 100 characters, then append a
hyphen and the first 8 characters of the video id. -/
def post_slug (title vid : Str) : Str :=
  let s := slugifyModel title
  let s := if s.length > 100 then s.take 100 else s
  s ++ '-' :: vid.take 8

/-- Lowercase-alphanumeric character: the token alphabet of the spec's slug
shape regex. -/
def alnumLower (c : Char) : Bool := (('a' ≤ c) && (c ≤ 'z')) || (('0' ≤ c) && (c ≤ '9'))

/-- Decidable form of the spec's slug shape `^[a-z0-9]+(-[a-z0-9]+)*$`:
nonempty, alphabet [a-z0-9-], no hyphen at either end, no two adjacent
hyphens. -/
def slugShape (s : Str) : Bool :=
  !s.isEmpty
    && s.all (fun c => alnumLower c || c = '-')
    && (match s.head? with | some c => alnumLower c | none => false)
    && (match s.getLast? with | some c => alnumLower c | none => false)
    && !hasSub (S "--") s

/-! ### Language detection (spec §4.2) -/

/-- CJK Unified Ideograph, the Python regex class `[一-鿿]`. -/
def isHan (c : Char) : Bool := decide (0x4e00 ≤ c.toNat) && decide (c.toNat ≤ 0x9fff)

/-- Hangul syllable, the Python regex class `[가-힯]`. -/
def isHangul (c : Char) : Bool := decide (0xac00 ≤ c.toNat) && decide (c.toNat ≤ 0xd7af)

/-- Hiragana, Katakana or CJK ideograph, the Python regex class
`[぀-ゟ゠-ヿ一-鿿]`. -/
def isKanaOrHan (c : Char) : Bool :=
  (decide (0x3040 ≤ c.toNat) && decide (c.toNat ≤ 0x309f))
    || (decide (0x30a0 ≤ c.toNat) && decide (c.toNat ≤ 0x30ff))
    || isHan c

/-- _detect_language_fallback (src/youtube/transcript.py lines 559-580, same in
src/myapp/youtube_transcript.py lines 411-439).  The Python float comparison
`count / total > 0.1` is modelled exactly on rationals as
`10 * count > total`. -/
def detect_language_fallback (transcript : Str) : Str :=
  let hanCount := (transcript.filter isHan).length
  let hangulCount := (transcript.filter isHangul).length
  let japCount := (transcript.filter isKanaOrHan).length
  let totalChars := (transcript.filter (fun c => !(c = ' '))).length
  if totalChars = 0 then S "en"
  else if 10 * hanCount > totalChars then S "zh-cn"
  else if 10 * hangulCount > totalChars then S "ko"
  else if 10 * japCount > totalChars then S "ja"
  else S "en"

/-- LanguageDetector._heuristic_language_detection
(src/spark_youtube/core/transcript/extractor.py lines 102-116): Chinese when
the ideograph count exceeds 10% of the total character count, else English. -/
def heuristic_language_detection (text : Str) : Str :=
  if text = [] then S "en"
  else
    let hanCount := (text.filter isHan).length
    let totalChars := text.length
    if totalChars > 0 then
      (if 10 * hanCount > totalChars then S "zh-cn" else S "en")
    else S "en"

/-! ### Transcript acquisition fallback (spec §4.3) -/

/-- Outcome of the subtitle attempt inside get_transcript_async: success with
the fetched timed segments, the TranscriptsDisabled / NoTranscriptFound
exceptions, or any other exception. -/
inductive SubOutcome where
  | ok (segments : List Str)
  | disabled (msg : Str)
  | notFound (msg : Str)
  | otherErr (msg : Str)

/-- Boundary-service outcomes for one run of get_transcript_async. -/
structure AcqEnv where
  subApiAvailable : Bool
  subRes : SubOutcome
  ytDlpAvailable : Bool
  genaiAvailable : Bool
  audRes : Except Str Str

/-- Error message of get_transcript_async when the audio dependencies are
missing (src/youtube/transcript.py lines 127-130). -/
def audUnavailableMsg : Str :=
  S "Audio transcription unavailable. Install yt-dlp and google-generativeai:\npip install yt-dlp google-generativeai"

/-- Error message of get_transcript_async when the audio path was attempted and
failed (src/youtube/transcript.py line 137). -/
def bothFailedMsg (e : Str) : Str := S "Both subtitle and audio transcription failed: " ++ e

/-- get_transcript_async (src/youtube/transcript.py lines 81-137): the subtitle
path succeeds only when the subtitle API is importable and the fetch returned
segments (joined with single spaces); TranscriptsDisabled, NoTranscriptFound and
every other subtitle exception fall through to the audio path; the audio path
errors out when the yt-dlp or genai dependency is missing, and otherwise wraps
an audio-transcription failure in the both-paths-failed message. -/
def get_transcript (env : AcqEnv) : Except Str Str :=
  match env.subApiAvailable, env.subRes with
  | true, .ok segs => .ok (joinSep (S " ") segs)
  | _, _ =>
    if !(env.ytDlpAvailable && env.genaiAvailable) then .error audUnavailableMsg
    else
      match env.audRes with
      | .ok t => .ok t
      | .error e => .error (bothFailedMsg e)

/-! ### Temporary-file cleanup in the audio fallback -/

/-- Boundary outcomes for one run of _transcribe_audio_async: whether
_download_audio_sync raised, whether the temporary file still exists after the
download and its size, and the outcome of _transcribe_with_gemini_sync. -/
structure AudEnv where
  downloadErr : Option Str
  fileKept : Bool
  fileSize : Nat
  geminiRes : Except Str Str

/-- Error message of the empty-file rejection (src/youtube/transcript.py line
208). -/
def emptyDownloadMsg : Str := S "Audio download failed - file not created or empty"

/-- File-system state tracked across _transcribe_audio_async: whether the
scoped temporary audio file exists. -/
structure FsState where
  tempExists : Bool

/-- The finally block of _transcribe_audio_async (src/youtube/transcript.py
lines 222-229): os.remove the temporary file if it exists. -/
def runFinally (s : FsState) : FsState :=
  if s.tempExists then { tempExists := false } else s

/-- _transcribe_audio_async (src/youtube/transcript.py lines 178-229):
tempfile.NamedTemporaryFile(delete=False) creates the temporary file; the
download runs, an absent or empty file is rejected, the transcription runs; on
every exit — return or exception — the finally block runs on the current
file-system state.  The second component is the file-system state at exit. -/
def transcribe_aud (env : AudEnv) : Except Str Str × FsState :=
  let s0 : FsState := { tempExists := true }
  match env.downloadErr with
  | some m => (.error (S "Failed to download audio: " ++ m), runFinally s0)
  | none =>
    let s1 : FsState := { tempExists := env.fileKept }
    if !s1.tempExists || env.fileSize = 0 then (.error emptyDownloadMsg, runFinally s1)
    else
      match env.geminiRes with
      | .ok t => (.ok t, runFinally s1)
      | .error m => (.error m, runFinally s1)

/-! ### Title length optimisation (spec §4.4) -/

/-- AIGenerator._optimize_title_length (src/ai/ai_generator.py lines 311-324,
identical in src/spark_youtube/core/ai/generator.py lines 228-241): titles of at
most 60 characters pass unchanged; longer titles are cut to 57 characters, and
when the last space of that cut sits after index 40 the cut moves back to it;
no ellipsis is ever appended. -/
def optimize_title_length (title : Str) : Str :=
  if title.length ≤ 60 then title
  else
    let t := title.take 57
    match rFind ' ' t with
    | some i => if i > 40 then t.take i else t
    | none => t

/-! ### Front matter assembly and validation (spec §4.5) -/

/-- AIGenerator._create_front_matter (src/ai/ai_generator.py lines 642-672):
plain key: value lines joined by newlines plus a trailing newline; the title is
first stripped of wrapping double quotes and then of wrapping single quotes; an
image line is appended when a thumbnail is given. -/
def create_front_matter_ai (title date author category : Str) (tags : List Str)
    (slug youtube_id summary : Str) (thumb : Option Str) : Str :=
  let t := stripChars ['\''] (stripChars ['"'] title)
  joinSep (S "\n")
    ([S "title: " ++ t, S "date: " ++ date, S "author: " ++ author,
      S "category: " ++ category, S "tags: " ++ joinSep (S ", ") tags,
      S "slug: " ++ slug, S "youtube_id: " ++ youtube_id, S "summary: " ++ summary]
      ++ (match thumb with | some im => [S "image: " ++ im] | none => []))
    ++ S "\n"

/-- AIGenerator.generate_post_async document assembly (src/ai/ai_generator.py
line 112): marker, front matter, closing marker, blank line, summary, blank
line, body. -/
def full_markdown_ai (front_matter summary content : Str) : Str :=
  S "---\n" ++ front_matter ++ S "\n---\n\n" ++ summary ++ S "\n\n" ++ content

/-- The document assembled by AIGenerator.generate_post_async from the given
field values: front matter followed by summary and body (src/ai/ai_generator.py
lines 99-112). -/
def assembled_doc (title date author category : Str) (tags : List Str)
    (slug youtube_id summary body : Str) (thumb : Option Str) : Str :=
  full_markdown_ai
    (create_front_matter_ai title date author category tags slug youtube_id summary thumb)
    summary body

/-- Result of validate_pelican_front_matter: the validity flag, the parsed
key/value entries, and whether the quoted-title warning fires. -/
structure FMValidation where
  valid : Bool
  entries : List (Str × Str)
  titleQuoted : Bool

/-- One iteration of the line loop of validate_pelican_front_matter
(src/pelican/integrator.py lines 133-137): strip the line, keep it only if it
contains a colon and does not start with '#', split on the first colon, strip
key and value. -/
def parseFMLine (line : Str) : Option (Str × Str) :=
  let l := stripWs line
  if l.head? = some '#' then none
  else
    match splitFirst ':' l with
    | some (k, v) => some (stripWs k, stripWs v)
    | none => none

/-- Lookup in the Python dict built by the line loop: the last assignment to a
key wins. -/
def fmLookup (entries : List (Str × Str)) (k : Str) : Option Str :=
  (entries.reverse.find? (fun e => decide (e.1 = k))).map (fun e => e.2)

/-- Required-field check of validate_pelican_front_matter: the field must be
present with a non-empty value. -/
def requiredFieldOk (entries : List (Str × Str)) (k : Str) : Bool :=
  match fmLookup entries k with
  | some v => !v.isEmpty
  | none => false

/-- validate_pelican_front_matter (src/pelican/integrator.py lines 98-173):
the document must start with the marker; the closing marker is located with
find('---', 4); the block between them is stripped and parsed line by line into
key/value entries; title, date and author must be present and non-empty.
`titleQuoted` records the "Title should not be wrapped in quotes" warning; the
date-format and empty-body warnings do not affect validity and are not
modelled. -/
def validate_front_matter (doc : Str) : FMValidation :=
  if !((S "---").isPrefixOf doc) then { valid := false, entries := [], titleQuoted := false }
  else
    match findFrom doc (S "---") 4 with
    | none => { valid := false, entries := [], titleQuoted := false }
    | some i =>
      let fm := stripWs ((doc.drop 4).take (i - 4))
      let entries := (splitNL fm).filterMap parseFMLine
      let valid := requiredFieldOk entries (S "title")
        && requiredFieldOk entries (S "date")
        && requiredFieldOk entries (S "author")
      let tq :=
        match fmLookup entries (S "title") with
        | some t => (S "\"").isPrefixOf t && (S "\"").isSuffixOf t
        | none => false
      { valid := valid, entries := entries, titleQuoted := tq }

/-! ### Publication pipeline and idempotent skip (spec §4.5, §3) -/

/-- The content directory: file names with their text, in listing order. -/
abbrev Dir := List (Str × Str)

/-- Dict of post fields returned by ContentGenerator.generate_post_data
(src/spark_youtube/core/ai/generator.py lines 564-575). -/
structure PostData where
  title : Str
  slug : Str
  content : Str
  front_matter : Str
  youtube_id : Str
  category : Str
  tags : List Str
  summary : Str
  filename : Str
  language : Str

/-- Python s.replace('"', '\\"') used on the summary by the integrator's front
matter. -/
def escapeQuotes : Str → Str
  | [] => []
  | c :: rest => if c = '"' then '\\' :: '"' :: escapeQuotes rest else c :: escapeQuotes rest

/-- Generated field values arriving from the AI boundary service (title, body,
summary, tags) together with the clock readings, as consumed by
generate_post_data. -/
structure GenInputs where
  title : Str
  content : Str
  summary : Str
  tags : List Str
  dateIso : Str
  datePrefix : Str

/-- ContentGenerator._create_front_matter (src/spark_youtube/core/ai/generator.py
lines 581-618): eight key: value lines joined by newlines, no trailing newline;
an image line is appended when a thumbnail is given (the pathlib relative-path
resolution is file-system boundary behaviour, so the resolved image value is
taken as an input). -/
def create_front_matter_core (title date author category : Str) (tags : List Str)
    (slug youtube_id summary : Str) (thumbLine : Option Str) : Str :=
  joinSep (S "\n")
    ([S "title: " ++ title, S "date: " ++ date, S "author: " ++ author,
      S "category: " ++ category, S "tags: " ++ joinSep (S ", ") tags,
      S "slug: " ++ slug, S "youtube_id: " ++ youtube_id, S "summary: " ++ summary]
      ++ (match thumbLine with | some im => [S "image: " ++ im] | none => []))

/-- Configuration and clock values consumed by the pipeline. -/
structure Cfg where
  defaultCategory : Str
  defaultAuthor : Str
  nowIso : Str

/-- ContentGenerator.generate_post_data (src/spark_youtube/core/ai/generator.py
lines 512-575): derive slug and filename, build the front matter, assemble the
full markdown, and return the post-field dict; `category or default` resolves a
missing category to the configured default. -/
def generate_post_data (g : GenInputs) (video_id : Str) (category : Option Str)
    (language : Str) (cfg : Cfg) (thumbLine : Option Str) : PostData :=
  let cat := category.getD cfg.defaultCategory
  let slug := generate_slug g.title
  let filename := g.datePrefix ++ '-' :: slug ++ S ".md"
  let fm := create_front_matter_core g.title g.dateIso cfg.defaultAuthor cat g.tags
    slug video_id g.summary thumbLine
  let full := S "---\n" ++ fm ++ S "---\n\n" ++ g.summary ++ S "\n\n" ++ g.content
  { title := g.title, slug := slug, content := full, front_matter := fm,
    youtube_id := video_id, category := cat, tags := g.tags,
    summary := g.summary, filename := filename, language := language }

/-- PelicanIntegrator.check_existing_post (src/spark_youtube/core/integrator/
pelican.py lines 187-216): scan the markdown files of the content directory in
listing order for one whose text contains the fragment "youtube_id: <id>";
return its path. -/
def check_existing_post (dir : Dir) (youtube_id : Str) : Option Str :=
  (dir.find? (fun f => hasSub (S "youtube_id: " ++ youtube_id) f.2)).map (fun f => f.1)

/-- PelicanIntegrator.create_front_matter (src/spark_youtube/core/integrator/
pelican.py lines 91-134), applied to the dict that generate_post_data produced:
that dict carries no date or author key, so the current time and the configured
author are used; the summary is wrapped in escaped double quotes; the dict
carries no youtube_thumbnail key, so no image line; the language line is
emitted. -/
def create_front_matter_int (pd : PostData) (cfg : Cfg) : Str :=
  joinSep (S "\n")
    [S "title: " ++ pd.title, S "date: " ++ cfg.nowIso, S "author: " ++ cfg.defaultAuthor,
     S "category: " ++ pd.category, S "tags: " ++ joinSep (S ", ") pd.tags,
     S "slug: " ++ pd.slug, S "youtube_id: " ++ pd.youtube_id,
     S "summary: \"" ++ escapeQuotes pd.summary ++ S "\"",
     S "language: " ++ pd.language]

/-- Python open(path, 'w') followed by a full write: an existing file is
replaced, otherwise the file is appended to the directory listing. -/
def writeFile (dir : Dir) (name content : Str) : Dir :=
  if dir.any (fun f => decide (f.1 = name)) then
    dir.map (fun f => if f.1 = name then (name, content) else f)
  else dir ++ [(name, content)]

/-- PelicanIntegrator.save_post (src/spark_youtube/core/integrator/pelican.py
lines 136-185): validate the post dict (the observable check is that the file
name ends in ".md"; the field-presence and tags-type checks hold structurally),
build the integrator's front matter, assemble marker + front matter + marker +
summary + content, and write it to content_dir/filename.  Returns the saved
path (modelled by the file name) and the updated directory. -/
def save_post (dir : Dir) (pd : PostData) (cfg : Cfg) : Except Str (Str × Dir) :=
  if !((S ".md").isSuffixOf pd.filename) then .error (S "Filename must end with .md")
  else
    let fm := create_front_matter_int pd cfg
    let full := S "---\n" ++ fm ++ S "---\n\n" ++ (pd.summary ++ S "\n\n") ++ pd.content
    .ok (pd.filename, writeFile dir pd.filename full)

/-- Outcome status of process_single_video. -/
inductive ProcStatus where
  | created
  | already_exists
  | errored (msg : Str)
deriving DecidableEq

/-- Result of process_single_video: status, saved or existing path, and the
content directory afterwards. -/
structure ProcResult where
  status : ProcStatus
  post_path : Option Str
  dir : Dir

/-- Steps 3-6 of process_single_video: generate the post data from the boundary
stages' outputs and save it. -/
def publishGenerated (dir : Dir) (video_id : Str) (g : GenInputs)
    (category : Option Str) (language : Str) (thumbLine : Option Str)
    (cfg : Cfg) : ProcResult :=
  let pd := generate_post_data g video_id category language cfg thumbLine
  match save_post dir pd cfg with
  | .ok (p, dir') => { status := .created, post_path := some p, dir := dir' }
  | .error m => { status := .errored m, post_path := none, dir := dir }

/-- SparkYouTubeProcessor.process_single_video (src/spark_youtube/processor.py
lines 35-131), with the outputs of the transcript, thumbnail and AI boundary
stages supplied in `GenInputs` (the claim under verification concerns the
duplicate check, which runs before those stages, and the save, which runs
after): without the force flag, an existing post carrying the same youtube id
short-circuits with status already_exists, the existing path, and an unchanged
directory; otherwise the generated post is saved. -/
def process_single_video (dir : Dir) (video_id : Str) (force_regenerate : Bool)
    (g : GenInputs) (category : Option Str) (language : Str)
    (thumbLine : Option Str) (cfg : Cfg) : ProcResult :=
  if force_regenerate = false then
    match check_existing_post dir video_id with
    | some p =>
      { status := .already_exists, post_path := some p, dir := dir }
    | none => publishGenerated dir video_id g category language thumbLine cfg
  else publishGenerated dir video_id g category language thumbLine cfg

/-- Number of documents of the directory whose text contains the
"youtube_id: <id>" fragment. -/
def countMatching (dir : Dir) (youtube_id : Str) : Nat :=
  (dir.filter (fun f => hasSub (S "youtube_id: " ++ youtube_id) f.2)).length

/-! ### Interrupted writes (spec §4.5, write atomicity) -/

/-- The in-place write of save_post / save_markdown_post: open(path, 'w')
truncates the target, then the content is written character by character.
`writeInterrupted old content k` is the file at the target after `k` steps of
that process (step 0 = before the open; step 1 = just after the truncating open;
step 1 + j = after j characters were written), modelling an execution
interrupted at that point. -/
def writeInterrupted (old : Option Str) (content : Str) (k : Nat) : Option Str :=
  if k = 0 then old else some (content.take (k - 1))

/-! ### Statement-level predicates -/

/-- Front-matter value in the round-trip-friendly fragment: non-empty, no line
break, no occurrence of the marker "---", and no whitespace at either end. -/
def benignVal (v : Str) : Bool :=
  !v.isEmpty && !v.contains '\n' && !hasSub (S "---") v
    && (match v.head? with | some c => !c.isWhitespace | none => true)
    && (match v.getLast? with | some c => !c.isWhitespace | none => true)

/-- Title whose first and last characters are not quote characters, so the
quote-stripping of _create_front_matter leaves it unchanged. -/
def noQuoteEdges (v : Str) : Bool :=
  (match v.head? with | some c => !(c = '"' || c = '\'') | none => true)
    && (match v.getLast? with | some c => !(c = '"' || c = '\'') | none => true)

/-- The result `r` of truncating `t` ends at a word boundary: either `t` was
returned unchanged or the cut sits exactly where `t` has a space. -/
def endsAtWordBoundary (t r : Str) : Prop :=
  r = t ∨ (t.drop r.length).head? = some ' '

instance (t r : Str) : Decidable (endsAtWordBoundary t r) := by
  unfold endsAtWordBoundary
  infer_instance

/-- Text consisting of ASCII characters only. -/
def asciiOnly (l : Str) : Prop := ∀ c ∈ l, c.toNat < 128

instance (l : Str) : Decidable (asciiOnly l) := by
  unfold asciiOnly
  infer_instance

/-! ## Helper lemmas: substring search agrees with the infix relation -/

theorem mem_of_head?_eq {l : Str} {c : Char} (h : l.head? = some c) : c ∈ l := by
  cases l with
  | nil => simp at h
  | cons a t => simp only [List.head?_cons, Option.some.injEq] at h; simp [h]

theorem mem_of_getLast?_eq {l : Str} {c : Char} (h : l.getLast? = some c) : c ∈ l := by
  induction l with
  | nil => simp at h
  | cons a t ih =>
    cases t with
    | nil => simp only [List.getLast?_singleton, Option.some.injEq] at h; simp [h]
    | cons b t' =>
      rw [List.getLast?_cons_cons] at h
      exact List.mem_cons_of_mem a (ih h)

theorem findSub_isSome_of_pfx {pat l : Str} (h : pat <+: l) :
    (findSub pat l).isSome = true := by
  cases l with
  | nil =>
    have hp : pat = [] := List.prefix_nil.mp h
    subst hp
    simp [findSub]
  | cons c rest =>
    simp only [findSub]
    rw [if_pos (List.isPrefixOf_iff_prefix.mpr h)]
    rfl

theorem findSub_isSome_cons {pat rest : Str} (c : Char)
    (h : (findSub pat rest).isSome = true) : (findSub pat (c :: rest)).isSome = true := by
  simp only [findSub]
  split
  · rfl
  · simpa using h

theorem hasSub_of_infx {pat l : Str} (h : pat <:+: l) : hasSub pat l = true := by
  obtain ⟨s, t, rfl⟩ := h
  unfold hasSub
  induction s with
  | nil =>
    refine findSub_isSome_of_pfx ?_
    exact ⟨t, by simp⟩
  | cons c s ih => simpa using findSub_isSome_cons c (by simpa using ih)

theorem pfx_drop_of_findSub {pat l : Str} {i : Nat} (h : findSub pat l = some i) :
    pat <+: l.drop i := by
  induction l generalizing i with
  | nil =>
    simp only [findSub] at h
    split at h
    · rename_i he
      have h0 : i = 0 := by simpa using h.symm
      subst h0
      have hp : pat = [] := by simpa using he
      simp [hp]
    · simp at h
  | cons c rest ih =>
    simp only [findSub] at h
    split at h
    · rename_i hp
      have h0 : i = 0 := by simpa using h.symm
      subst h0
      simpa using List.isPrefixOf_iff_prefix.mp hp
    · obtain ⟨j, hj, hji⟩ := Option.map_eq_some'.mp h
      subst hji
      simpa using ih hj

theorem infix_of_hasSub {pat l : Str} (h : hasSub pat l = true) : pat <:+: l := by
  unfold hasSub at h
  obtain ⟨i, hi⟩ := Option.isSome_iff_exists.mp h
  exact (pfx_drop_of_findSub hi).isInfix.trans (List.drop_suffix i l).isInfix

theorem hasSub_iff {pat l : Str} : hasSub pat l = true ↔ pat <:+: l :=
  ⟨infix_of_hasSub, hasSub_of_infx⟩

theorem findSub_eq_some {pat l : Str} {i : Nat}
    (h1 : pat <+: l.drop i)
    (h2 : ∀ j, j < i → ¬ pat <+: l.drop j) :
    findSub pat l = some i := by
  induction l generalizing i with
  | nil =>
    cases i with
    | zero =>
      have hp : pat = [] := List.prefix_nil.mp (by simpa using h1)
      simp [findSub, hp]
    | succ n =>
      exact absurd (show pat <+: List.drop 0 [] by simpa using h1)
        (h2 0 (Nat.succ_pos n))
  | cons c rest ih =>
    cases i with
    | zero =>
      simp only [findSub]
      rw [if_pos (List.isPrefixOf_iff_prefix.mpr (by simpa using h1))]
    | succ n =>
      simp only [findSub]
      rw [if_neg]
      · rw [ih (by simpa using h1) (fun j hj => by simpa using h2 (j + 1) (by omega))]
        rfl
      · intro hp
        exact h2 0 (Nat.succ_pos n) (by simpa using List.isPrefixOf_iff_prefix.mp hp)

theorem findFrom_eq_some {l pat : Str} {s i : Nat}
    (hsi : s ≤ i)
    (h1 : pat <+: l.drop i)
    (h2 : ∀ j, s ≤ j → j < i → ¬ pat <+: l.drop j) :
    findFrom l pat s = some i := by
  unfold findFrom
  rw [findSub_eq_some (i := i - s) ?_ ?_]
  · simp [Nat.sub_add_cancel hsi]
  · rw [List.drop_drop, show s + (i - s) = i by omega]
    exact h1
  · intro j hj
    rw [List.drop_drop]
    exact h2 (s + j) (by omega) (by omega)

/-! ## Helper lemmas: splitting an infix occurrence across an append -/

theorem infix_split {p a b : Str} (h : p <:+: a ++ b) :
    p <:+: a ∨ p <:+: b ∨
      ∃ p1 p2, p = p1 ++ p2 ∧ p1 ≠ [] ∧ p2 ≠ [] ∧ p1 <:+ a ∧ p2 <+: b := by
  obtain ⟨s, t, hst⟩ := h
  have hst' : s ++ (p ++ t) = a ++ b := by rw [← List.append_assoc]; exact hst
  have hdTake : (s ++ (p ++ t)).take a.length = a := by rw [hst', List.take_left]
  have hdDrop : (s ++ (p ++ t)).drop a.length = b := by rw [hst', List.drop_left]
  rcases Nat.lt_or_ge a.length (s.length + 1) with hc | hc
  · -- a.length ≤ s.length: the occurrence lies inside b
    have hb : b = s.drop a.length ++ (p ++ t) := by
      rw [← hdDrop, List.drop_append_eq_append_drop,
        Nat.sub_eq_zero_of_le (by omega), List.drop_zero]
    exact Or.inr (Or.inl ⟨s.drop a.length, t, by rw [hb, List.append_assoc]⟩)
  · rcases Nat.lt_or_ge a.length (s.length + p.length) with hc2 | hc2
    · -- the occurrence straddles the boundary
      obtain ⟨k, hk⟩ : ∃ k, a.length = s.length + k := ⟨a.length - s.length, by omega⟩
      have hk1 : 0 < k := by omega
      have hk2 : k < p.length := by omega
      have ha : a = s ++ p.take k := by
        rw [← hdTake, hk, List.take_append, List.take_append_eq_append_take,
          Nat.sub_eq_zero_of_le (by omega), List.take_zero, List.append_nil]
      have hb : b = p.drop k ++ t := by
        rw [← hdDrop, hk, List.drop_append, List.drop_append_eq_append_drop,
          Nat.sub_eq_zero_of_le (by omega), List.drop_zero]
      refine Or.inr (Or.inr ⟨p.take k, p.drop k, (List.take_append_drop _ p).symm,
        ?_, ?_, ⟨s, ha.symm⟩, ⟨t, hb.symm⟩⟩)
      · intro hnil
        have := congrArg List.length hnil
        rw [List.length_take] at this
        simp only [List.length_nil] at this
        omega
      · intro hnil
        have := congrArg List.length hnil
        rw [List.length_drop] at this
        simp only [List.length_nil] at this
        omega
    · -- s.length + p.length ≤ a.length: the occurrence lies inside a
      obtain ⟨k, hk⟩ : ∃ k, a.length = (s ++ p).length + k :=
        ⟨a.length - s.length - p.length, by simp only [List.length_append]; omega⟩
      have ha : a = s ++ p ++ t.take k := by
        rw [← hdTake, ← List.append_assoc, hk, List.take_append]
      exact Or.inl ⟨s, t.take k, ha.symm⟩

theorem infix_take_of_pfx_drop {pat l : Str} {j m : Nat}
    (h : pat <+: l.drop j) (hm : j + pat.length ≤ m) : pat <:+: l.take m := by
  have h1 : pat <+: (l.take m).drop j := by
    rw [List.drop_take]
    rw [List.prefix_iff_eq_take, List.take_take, min_eq_left (by omega)]
    exact List.prefix_iff_eq_take.mp h
  exact h1.isInfix.trans (List.drop_suffix j (l.take m)).isInfix

theorem getLast?_of_sfx {p l : Str} (h : p <:+ l) (hp : p ≠ []) :
    p.getLast? = l.getLast? := by
  obtain ⟨u, rfl⟩ := h
  rw [List.getLast?_append]
  cases hq : p.getLast? with
  | none => exact absurd (by simpa using hq) hp
  | some c => rfl

theorem head?_append_left {l : Str} (r : Str) (h : l ≠ []) :
    (l ++ r).head? = l.head? := by
  cases l with
  | nil => exact absurd rfl h
  | cons a t => rfl

/-! ## Helper lemmas: newline joins and splits -/

theorem joinSep_cons_cons (sep x y : Str) (ls : List Str) :
    joinSep sep (x :: y :: ls) = x ++ sep ++ joinSep sep (y :: ls) := rfl

theorem infix_of_mem_joinSep {sep l : Str} {ls : List Str} (h : l ∈ ls) :
    l <:+: joinSep sep ls := by
  induction ls with
  | nil => cases h
  | cons x xs ih =>
    cases xs with
    | nil =>
      rcases List.mem_cons.mp h with rfl | h'
      · exact List.infix_refl l
      · cases h'
    | cons y ys =>
      rw [joinSep_cons_cons, List.append_assoc]
      rcases List.mem_cons.mp h with rfl | h'
      · exact (List.prefix_append l _).isInfix
      · refine (ih h').trans ⟨x ++ sep, [], ?_⟩
        simp [List.append_assoc]

theorem newline_mem_of_infix_single {p : Str} (hne : p ≠ []) (h : p <:+: S "\n") :
    '\n' ∈ p := by
  cases p with
  | nil => exact absurd rfl hne
  | cons c cs =>
    have hm : c ∈ S "\n" := h.sublist.subset (List.mem_cons_self c cs)
    have : c = '\n' := by simpa [S] using hm
    rw [this]
    exact List.mem_cons_self _ _

theorem infix_mem_of_infix_joinSep {p : Str} {ls : List Str}
    (hnl : '\n' ∉ p) (hne : p ≠ []) (h : p <:+: joinSep (S "\n") ls) :
    ∃ l ∈ ls, p <:+: l := by
  induction ls with
  | nil =>
    rw [show joinSep (S "\n") ([] : List Str) = [] from rfl] at h
    exact absurd (List.sublist_nil.mp h.sublist) hne
  | cons x xs ih =>
    cases xs with
    | nil => exact ⟨x, List.mem_cons_self x [], h⟩
    | cons y ys =>
      rw [joinSep_cons_cons, List.append_assoc] at h
      rcases infix_split h with h1 | h1 | ⟨p1, p2, hp, hp1, _, _, hpfx⟩
      · exact ⟨x, List.mem_cons_self x _, h1⟩
      · rcases infix_split h1 with h2 | h2 | ⟨q1, q2, hq, hq1, _, hsfx, _⟩
        · exact absurd (newline_mem_of_infix_single hne h2) hnl
        · obtain ⟨l, hl, hinf⟩ := ih h2
          exact ⟨l, List.mem_cons_of_mem x hl, hinf⟩
        · refine absurd ?_ hnl
          have hgl : q1.getLast? = some '\n' := by
            rw [getLast?_of_sfx hsfx hq1]; rfl
          have : '\n' ∈ q1 := mem_of_getLast?_eq hgl
          rw [hq]
          exact List.mem_append_left q2 this
      · refine absurd ?_ hnl
        cases p2 with
        | nil => exact absurd rfl (by assumption)
        | cons d ds =>
          have hd : d = '\n' := (List.cons_prefix_cons.mp hpfx).1
          rw [hp, hd]
          exact List.mem_append_right p1 (List.mem_cons_self _ _)

theorem splitNL_no_newline {l : Str} (h : '\n' ∉ l) : splitNL l = [l] := by
  induction l with
  | nil => rfl
  | cons c rest ih =>
    have hc : ¬ c = '\n' := fun e => h (e ▸ List.mem_cons_self c rest)
    have hr : '\n' ∉ rest := fun m => h (List.mem_cons_of_mem c m)
    simp only [splitNL]
    rw [if_neg hc, ih hr]

theorem splitNL_append_newline {l x : Str} (h : '\n' ∉ l) :
    splitNL (l ++ '\n' :: x) = l :: splitNL x := by
  induction l with
  | nil => simp [splitNL]
  | cons c rest ih =>
    have hc : ¬ c = '\n' := fun e => h (e ▸ List.mem_cons_self c rest)
    have hr : '\n' ∉ rest := fun m => h (List.mem_cons_of_mem c m)
    simp only [List.cons_append, splitNL]
    rw [if_neg hc]
    simp only [List.append_eq]
    rw [ih hr]

theorem splitNL_joinSep {ls : List Str} (hne : ls ≠ [])
    (h : ∀ l ∈ ls, '\n' ∉ l) :
    splitNL (joinSep (S "\n") ls) = ls := by
  induction ls with
  | nil => exact absurd rfl hne
  | cons x xs ih =>
    cases xs with
    | nil => exact splitNL_no_newline (h x (List.mem_cons_self x []))
    | cons y ys =>
      rw [joinSep_cons_cons]
      have hshape : x ++ S "\n" ++ joinSep (S "\n") (y :: ys)
          = x ++ '\n' :: joinSep (S "\n") (y :: ys) := by
        rw [List.append_assoc]; rfl
      rw [hshape, splitNL_append_newline (h x (List.mem_cons_self x _)),
        ih (by simp) (fun l hl => h l (List.mem_cons_of_mem x hl))]

/-! ## Helper lemmas: stripping -/

theorem dropWhile_eq_self_of_head {p : Char → Bool} {l : Str}
    (h : ∀ c, l.head? = some c → p c = false) : l.dropWhile p = l := by
  cases l with
  | nil => rfl
  | cons a t =>
    rw [List.dropWhile_cons, h a rfl]
    simp

theorem trimBoth_eq_self {p : Char → Bool} {l : Str}
    (h1 : ∀ c, l.head? = some c → p c = false)
    (h2 : ∀ c, l.getLast? = some c → p c = false) :
    ((l.dropWhile p).reverse.dropWhile p).reverse = l := by
  rw [dropWhile_eq_self_of_head h1]
  rw [dropWhile_eq_self_of_head (fun c hc => h2 c (by rwa [List.head?_reverse] at hc))]
  exact List.reverse_reverse l

theorem stripWs_eq_self {l : Str}
    (h1 : ∀ c, l.head? = some c → c.isWhitespace = false)
    (h2 : ∀ c, l.getLast? = some c → c.isWhitespace = false) :
    stripWs l = l :=
  trimBoth_eq_self h1 h2

theorem stripChars_eq_self {cs : List Char} {l : Str}
    (h1 : ∀ c, l.head? = some c → cs.contains c = false)
    (h2 : ∀ c, l.getLast? = some c → cs.contains c = false) :
    stripChars cs l = l :=
  trimBoth_eq_self h1 h2

theorem stripWs_append_double_newline {x : Str}
    (h1 : ∀ c, x.head? = some c → c.isWhitespace = false)
    (h2 : ∀ c, x.getLast? = some c → c.isWhitespace = false) :
    stripWs (x ++ S "\n\n") = x := by
  cases x with
  | nil => rfl
  | cons a t =>
    unfold stripWs
    rw [dropWhile_eq_self_of_head (l := (a :: t) ++ S "\n\n")
      (fun c hc => h1 c (by rwa [head?_append_left (S "\n\n") (by simp)] at hc))]
    rw [List.reverse_append]
    rw [show (S "\n\n").reverse = '\n' :: '\n' :: [] from rfl]
    rw [show ('\n' :: '\n' :: [] : Str) ++ (a :: t).reverse
      = '\n' :: ('\n' :: (a :: t).reverse) from rfl]
    rw [List.dropWhile_cons]
    rw [show Char.isWhitespace '\n' = true from rfl]
    simp only [if_true]
    rw [List.dropWhile_cons]
    rw [show Char.isWhitespace '\n' = true from rfl]
    simp only [if_true]
    rw [dropWhile_eq_self_of_head
      (fun c hc => h2 c (by rwa [List.head?_reverse] at hc))]
    exact List.reverse_reverse _

theorem stripWs_space_cons {v : Str}
    (h1 : ∀ c, v.head? = some c → c.isWhitespace = false)
    (h2 : ∀ c, v.getLast? = some c → c.isWhitespace = false) :
    stripWs (' ' :: v) = v := by
  unfold stripWs
  rw [List.dropWhile_cons]
  rw [show Char.isWhitespace ' ' = true from rfl]
  simp only [if_true]
  rw [dropWhile_eq_self_of_head h1]
  rw [dropWhile_eq_self_of_head (fun c hc => h2 c (by rwa [List.head?_reverse] at hc))]
  exact List.reverse_reverse v

/-! ## Helper lemmas: first-colon split -/

theorem splitFirst_append {k v : Str} {sep : Char} (h : sep ∉ k) :
    splitFirst sep (k ++ sep :: v) = some (k, v) := by
  induction k with
  | nil => simp [splitFirst]
  | cons c rest ih =>
    have hc : ¬ c = sep := fun e => h (e ▸ List.mem_cons_self c rest)
    have hr : sep ∉ rest := fun m => h (List.mem_cons_of_mem c m)
    simp only [List.cons_append, splitFirst]
    rw [if_neg hc]
    simp only [List.append_eq]
    rw [ih hr]
    rfl

/-! ## Helper lemmas: where the marker "---" can occur -/

theorem not_infix_of_hasSub_false {p l : Str} (hf : hasSub p l = false) :
    ¬ p <:+: l := by
  intro h
  rw [hasSub_of_infx h] at hf
  cases hf

theorem dash_mem_of_marker_part {q : Str} (hq : q ≠ []) (hsub : q <+: S "---") :
    '-' ∈ q := by
  cases q with
  | nil => exact absurd rfl hq
  | cons c cs =>
    have hc : c = '-' := (List.cons_prefix_cons.mp hsub).1
    rw [hc]
    exact List.mem_cons_self _ _

theorem no_marker_in_keyline {K v : Str} (hK : '-' ∉ K) (hv : ¬ (S "---") <:+: v) :
    ¬ (S "---") <:+: K ++ v := by
  intro h
  rcases infix_split h with h1 | h1 | ⟨p1, p2, hp, hp1, _, hs1, _⟩
  · exact hK (h1.sublist.subset (by decide))
  · exact hv h1
  · have hd : '-' ∈ p1 := dash_mem_of_marker_part hp1 ⟨p2, hp.symm⟩
    exact hK (hs1.sublist.subset hd)

theorem no_marker_append_nl_head {x y : Str} (hx : ¬ (S "---") <:+: x)
    (hy : ¬ (S "---") <:+: y) (hh : y.head? = some '\n') :
    ¬ (S "---") <:+: x ++ y := by
  intro h
  rcases infix_split h with h1 | h1 | ⟨p1, p2, hp, _, hp2, _, hs2⟩
  · exact hx h1
  · exact hy h1
  · cases p2 with
    | nil => exact hp2 rfl
    | cons d ds =>
      have hd : d = '\n' := by
        cases y with
        | nil => simp at hh
        | cons e es =>
          have hde : d = e := (List.cons_prefix_cons.mp hs2).1
          simp only [List.head?_cons, Option.some.injEq] at hh
          rw [hde, hh]
      have hmem : '\n' ∈ S "---" := by
        rw [hp, hd]
        exact List.mem_append_right p1 (List.mem_cons_self _ _)
      simp [S] at hmem

theorem getLast?_append_right {x y : Str} (hy : y ≠ []) :
    (x ++ y).getLast? = y.getLast? := by
  rw [List.getLast?_append]
  cases hq : y.getLast? with
  | none => exact absurd (by simpa using hq) hy
  | some c => rfl

theorem getLast?_joinSep {sep : Str} (hsep : sep ≠ []) {ls : List Str} {lst : Str}
    (hlast : lst ≠ []) :
    (joinSep sep (ls ++ [lst])).getLast? = lst.getLast? := by
  induction ls with
  | nil => rfl
  | cons x xs ih =>
    obtain ⟨y, ys, he⟩ : ∃ y ys, xs ++ [lst] = y :: ys := by
      cases xs with
      | nil => exact ⟨lst, [], rfl⟩
      | cons a as => exact ⟨a, as ++ [lst], rfl⟩
    obtain ⟨c, hc⟩ : ∃ c, lst.getLast? = some c := by
      cases hq : lst.getLast? with
      | none => exact absurd (by simpa using hq) hlast
      | some c => exact ⟨c, rfl⟩
    have hjne : joinSep sep (xs ++ [lst]) ≠ [] := by
      intro hnil
      rw [hnil, hc] at ih
      simp at ih
    rw [List.cons_append, he, joinSep_cons_cons, ← he, List.append_assoc,
      getLast?_append_right (fun hnil => hsep (List.append_eq_nil.mp hnil).1),
      getLast?_append_right hjne, ih]

theorem head?_joinSep_cons {sep x : Str} {ls : List Str} (hx : x ≠ []) :
    (joinSep sep (x :: ls)).head? = x.head? := by
  cases ls with
  | nil => rfl
  | cons y ys =>
    rw [joinSep_cons_cons, List.append_assoc, head?_append_left _ hx]

theorem not_mem_append {c : Char} {x y : Str} (hx : c ∉ x) (hy : c ∉ y) :
    c ∉ x ++ y := fun h => (List.mem_append.mp h).elim hx hy

theorem benignVal_spec {v : Str} (h : benignVal v = true) :
    v ≠ [] ∧ '\n' ∉ v ∧ ¬ (S "---") <:+: v
      ∧ (∀ c, v.head? = some c → c.isWhitespace = false)
      ∧ (∀ c, v.getLast? = some c → c.isWhitespace = false) := by
  unfold benignVal at h
  simp only [Bool.and_eq_true] at h
  obtain ⟨⟨⟨⟨h1, h2⟩, h3⟩, h4⟩, h5⟩ := h
  refine ⟨?_, ?_, ?_, ?_, ?_⟩
  · intro he
    subst he
    simp at h1
  · intro hm
    have hc : v.contains '\n' = true := List.elem_eq_true_of_mem hm
    rw [hc] at h2
    cases h2
  · intro hi
    rw [hasSub_of_infx hi] at h3
    cases h3
  · intro c hc
    rw [hc] at h4
    simpa using h4
  · intro c hc
    rw [hc] at h5
    simpa using h5

theorem noQuoteEdges_spec {v : Str} (h : noQuoteEdges v = true) :
    (∀ c, v.head? = some c → (c = '"' ∨ c = '\'') → False)
      ∧ (∀ c, v.getLast? = some c → (c = '"' ∨ c = '\'') → False) := by
  unfold noQuoteEdges at h
  simp only [Bool.and_eq_true] at h
  obtain ⟨h1, h2⟩ := h
  constructor
  · intro c hc hq
    rw [hc] at h1
    rcases hq with rfl | rfl <;> simp at h1
  · intro c hc hq
    rw [hc] at h2
    rcases hq with rfl | rfl <;> simp at h2

theorem findFrom_marker (fmx tail : Str)
    (hno : ¬ (S "---") <:+: fmx ++ S "\n--") :
    findFrom (S "---\n" ++ (fmx ++ ('\n' :: (S "---" ++ tail)))) (S "---") 4
      = some (4 + (fmx.length + 1)) := by
  have hdrop : ∀ j : Nat,
      (S "---\n" ++ (fmx ++ ('\n' :: (S "---" ++ tail)))).drop (4 + j)
        = (fmx ++ ('\n' :: (S "---" ++ tail))).drop j := by
    intro j
    have h0 := @List.drop_append Char (S "---\n")
      (fmx ++ ('\n' :: (S "---" ++ tail))) j
    rwa [show (S "---\n").length = 4 from rfl] at h0
  apply findFrom_eq_some (by omega)
  · rw [hdrop]
    have : (fmx ++ ('\n' :: (S "---" ++ tail))).drop (fmx.length + 1)
        = S "---" ++ tail := by
      rw [List.drop_append 1]
      rfl
    rw [this]
    exact List.prefix_append _ _
  · intro j h4 hj hpfx
    apply hno
    obtain ⟨j', rfl⟩ : ∃ j', j = 4 + j' := ⟨j - 4, by omega⟩
    rw [hdrop] at hpfx
    have hle : j' + (S "---").length ≤ fmx.length + 3 := by
      have : (S "---").length = 3 := rfl
      omega
    have hW := infix_take_of_pfx_drop hpfx hle
    have hshape : (fmx ++ ('\n' :: (S "---" ++ tail))).take (fmx.length + 3)
        = fmx ++ S "\n--" := by
      rw [List.take_append 3]
      rfl
    rwa [hshape] at hW

/-! ## C9: the scoped temporary audio file is always cleaned up -/

theorem runFinally_tempExists (s : FsState) : (runFinally s).tempExists = false := by
  obtain ⟨b⟩ := s
  cases b <;> rfl

/-- C9: On every execution path of the audio transcription fallback — success,
download failure, empty-file rejection, or an exception raised during the remote
transcription call — the scoped temporary audio file is deleted before the
operation returns or propagates its error. -/
theorem C9_temp_audio_file_cleanup :
    (∀ env : AudEnv, (transcribe_aud env).2.tempExists = false)
    ∧ (∀ env : AudEnv, ∀ m, env.downloadErr = some m →
        (transcribe_aud env).1 = .error (S "Failed to download audio: " ++ m))
    ∧ (∀ env : AudEnv, env.downloadErr = none →
        (env.fileKept = false ∨ env.fileSize = 0) →
        (transcribe_aud env).1 = .error emptyDownloadMsg)
    ∧ (∀ env : AudEnv, ∀ m, env.downloadErr = none → env.fileKept = true →
        env.fileSize ≠ 0 → env.geminiRes = .error m →
        (transcribe_aud env).1 = .error m)
    ∧ (∀ env : AudEnv, ∀ t, env.downloadErr = none → env.fileKept = true →
        env.fileSize ≠ 0 → env.geminiRes = .ok t →
        (transcribe_aud env).1 = .ok t) := by
  refine ⟨?_, ?_, ?_, ?_, ?_⟩
  · intro env
    unfold transcribe_aud
    cases env.downloadErr with
    | some m => exact runFinally_tempExists _
    | none =>
      dsimp only
      split
      · exact runFinally_tempExists _
      · cases env.geminiRes <;> exact runFinally_tempExists _
  · intro env m hm
    simp [transcribe_aud, hm]
  · intro env hm hf
    rcases hf with hf | hf <;> simp [transcribe_aud, hm, hf]
  · intro env m hm hk hs hg
    simp [transcribe_aud, hm, hk, hs, hg]
  · intro env t hm hk hs hg
    simp [transcribe_aud, hm, hk, hs, hg]

/-- Witness for C9 at a concrete environment on each of the four paths. -/
theorem C9_temp_audio_file_cleanup_witness :
    (transcribe_aud ⟨some (S "net down"), false, 0, .ok (S "x")⟩).1
        = .error (S "Failed to download audio: net down")
    ∧ (transcribe_aud ⟨none, true, 0, .ok (S "x")⟩).1 = .error emptyDownloadMsg
    ∧ (transcribe_aud ⟨none, true, 5, .error (S "boom")⟩).1 = .error (S "boom")
    ∧ (transcribe_aud ⟨none, true, 5, .ok (S "hello")⟩).1 = .ok (S "hello")
    ∧ (transcribe_aud ⟨none, true, 5, .ok (S "hello")⟩).2.tempExists = false := by
  refine ⟨?_, ?_, ?_, ?_, ?_⟩
  · exact C9_temp_audio_file_cleanup.2.1 _ _ rfl
  · exact C9_temp_audio_file_cleanup.2.2.1 _ rfl (Or.inr rfl)
  · exact C9_temp_audio_file_cleanup.2.2.2.1 _ _ rfl rfl (by decide) rfl
  · exact C9_temp_audio_file_cleanup.2.2.2.2 _ _ rfl rfl (by decide) rfl
  · exact C9_temp_audio_file_cleanup.1 _

/-! ## C4: ordered subtitle-then-audio fallback -/

theorem infix_append_of_left {p x : Str} (y : Str) (h : p <:+: x) : p <:+: x ++ y :=
  h.trans (List.prefix_append x y).isInfix

/-- C4 (counterexample): with subtitles reported disabled and the yt-dlp
dependency missing, get_transcript_async raises an error whose message does not
name the subtitle stage, contradicting the claim that the final acquisition
error names both attempted stages. -/
theorem C4_counterexample :
    get_transcript
        { subApiAvailable := true, subRes := .disabled (S "subtitles disabled"),
          ytDlpAvailable := false, genaiAvailable := true, audRes := .ok (S "t") }
      = .error audUnavailableMsg
    ∧ hasSub (S "subtitle") audUnavailableMsg = false := by
  constructor
  · rfl
  · decide

/-- C4 (amended): when the subtitle path reports subtitles disabled or no
transcript found, the acquirer proceeds to the audio path instead of raising;
it raises only when the audio path fails or its dependencies are missing; and
when the audio path was attempted and failed, the error message names both the
subtitle and the audio stage (when the dependencies are missing, the message
names only the audio installation requirements). -/
theorem C4_transcript_fallback_ordering :
    (∀ env : AcqEnv, ∀ m t, (env.subRes = .disabled m ∨ env.subRes = .notFound m) →
        env.ytDlpAvailable = true → env.genaiAvailable = true →
        env.audRes = .ok t → get_transcript env = .ok t)
    ∧ (∀ env : AcqEnv, ∀ m, get_transcript env = .error m →
        (env.ytDlpAvailable && env.genaiAvailable) = false ∨ ∃ e, env.audRes = .error e)
    ∧ (∀ env : AcqEnv, ∀ m e, (env.subRes = .disabled m ∨ env.subRes = .notFound m) →
        env.ytDlpAvailable = true → env.genaiAvailable = true →
        env.audRes = .error e →
        get_transcript env = .error (bothFailedMsg e)
          ∧ hasSub (S "subtitle") (bothFailedMsg e) = true
          ∧ hasSub (S "audio") (bothFailedMsg e) = true) := by
  refine ⟨?_, ?_, ?_⟩
  · intro env m t hsub hyd hga haud
    obtain ⟨sa, sr, yd, ga, ar⟩ := env
    dsimp only at hsub hyd hga haud
    subst hyd hga haud
    rcases hsub with rfl | rfl <;> cases sa <;> simp [get_transcript]
  · intro env m herr
    obtain ⟨sa, sr, yd, ga, ar⟩ := env
    by_cases hdeps : (yd && ga) = false
    · exact Or.inl hdeps
    · refine Or.inr ?_
      rw [Bool.not_eq_false, Bool.and_eq_true] at hdeps
      obtain ⟨rfl, rfl⟩ := hdeps
      cases ar with
      | ok t =>
        exfalso
        cases sa <;> cases sr <;> simp [get_transcript] at herr
      | error e => exact ⟨e, rfl⟩
  · intro env m e hsub hyd hga haud
    obtain ⟨sa, sr, yd, ga, ar⟩ := env
    dsimp only at hsub hyd hga haud
    subst hyd hga haud
    refine ⟨?_, ?_, ?_⟩
    · rcases hsub with rfl | rfl <;> cases sa <;> simp [get_transcript]
    · exact hasSub_of_infx (infix_append_of_left e
        (infix_of_hasSub (by decide : hasSub (S "subtitle")
          (S "Both subtitle and audio transcription failed: ") = true)))
    · exact hasSub_of_infx (infix_append_of_left e
        (infix_of_hasSub (by decide : hasSub (S "audio")
          (S "Both subtitle and audio transcription failed: ") = true)))

/-- Witness for C4 at concrete environments: subtitles disabled with a working
audio path succeeds, and with a failing audio path raises the both-stages
message. -/
theorem C4_transcript_fallback_ordering_witness :
    get_transcript
        { subApiAvailable := true, subRes := .disabled (S "d"),
          ytDlpAvailable := true, genaiAvailable := true, audRes := .ok (S "Hello") }
      = .ok (S "Hello")
    ∧ get_transcript
        { subApiAvailable := true, subRes := .notFound (S "n"),
          ytDlpAvailable := true, genaiAvailable := true, audRes := .error (S "bad") }
      = .error (bothFailedMsg (S "bad"))
    ∧ hasSub (S "subtitle") (bothFailedMsg (S "bad")) = true := by
  refine ⟨?_, ?_, ?_⟩
  · exact C4_transcript_fallback_ordering.1
      { subApiAvailable := true, subRes := .disabled (S "d"),
        ytDlpAvailable := true, genaiAvailable := true, audRes := .ok (S "Hello") }
      (S "d") (S "Hello") (Or.inl rfl) rfl rfl rfl
  · exact (C4_transcript_fallback_ordering.2.2
      { subApiAvailable := true, subRes := .notFound (S "n"),
        ytDlpAvailable := true, genaiAvailable := true, audRes := .error (S "bad") }
      (S "n") (S "bad") (Or.inr rfl) rfl rfl rfl).1
  · exact (C4_transcript_fallback_ordering.2.2
      { subApiAvailable := true, subRes := .notFound (S "n"),
        ytDlpAvailable := true, genaiAvailable := true, audRes := .error (S "bad") }
      (S "n") (S "bad") (Or.inr rfl) rfl rfl rfl).2.1

/-! ## C7: title length optimisation -/

theorem rFind_spec {c : Char} {l : Str} {i : Nat} (h : rFind c l = some i) :
    l[i]? = some c ∧ i < l.length := by
  induction l generalizing i with
  | nil => simp [rFind] at h
  | cons a rest ih =>
    simp only [rFind] at h
    cases hr : rFind c rest with
    | some j =>
      rw [hr] at h
      dsimp only at h
      obtain rfl : j + 1 = i := by simpa using h
      obtain ⟨ih1, ih2⟩ := ih hr
      refine ⟨by simpa using ih1, by simp; omega⟩
    | none =>
      rw [hr] at h
      dsimp only at h
      by_cases hac : a = c
      · rw [if_pos hac] at h
        obtain rfl : (0 : Nat) = i := by simpa using h
        simp [hac]
      · rw [if_neg hac] at h
        simp at h

/-- C7 (counterexample): a 70-character single-word title is truncated to its
first 57 characters — in the middle of the word — so the claimed
never-cuts-mid-word property fails. -/
theorem C7_counterexample :
    ¬ endsAtWordBoundary (List.replicate 70 'a')
      (optimize_title_length (List.replicate 70 'a')) := by decide

/-- C7 (amended): the optimizer returns at most 60 characters, returns titles
of at most 60 characters unchanged, never appends anything (the result is a
prefix of the input, so no ellipsis); the cut lands on a word boundary exactly
when the 57-character cut contains a space after index 40, and otherwise it is
a hard cut at 57 characters, possibly inside a word. -/
theorem C7_title_length_optimizer :
    (∀ t : Str, (optimize_title_length t).length ≤ 60)
    ∧ (∀ t : Str, t.length ≤ 60 → optimize_title_length t = t)
    ∧ (∀ t : Str, optimize_title_length t <+: t)
    ∧ (∀ t : Str, ∀ i, 60 < t.length → rFind ' ' (t.take 57) = some i → 40 < i →
        optimize_title_length t = t.take i ∧ t[i]? = some ' '
          ∧ endsAtWordBoundary t (optimize_title_length t))
    ∧ (∀ t : Str, 60 < t.length → (∀ i, rFind ' ' (t.take 57) = some i → i ≤ 40) →
        optimize_title_length t = t.take 57) := by
  refine ⟨?_, ?_, ?_, ?_, ?_⟩
  · intro t
    unfold optimize_title_length
    split
    · assumption
    · dsimp only
      split
      · split
        · rw [List.length_take]
          have := List.length_take 57 t
          omega
        · rw [List.length_take]; omega
      · rw [List.length_take]; omega
  · intro t h
    unfold optimize_title_length
    rw [if_pos h]
  · intro t
    unfold optimize_title_length
    split
    · exact List.prefix_refl t
    · dsimp only
      split
      · split
        · exact (List.take_prefix _ _).trans (List.take_prefix 57 t)
        · exact List.take_prefix 57 t
      · exact List.take_prefix 57 t
  · intro t i hlen hfind hi
    obtain ⟨hget, hlt⟩ := rFind_spec hfind
    have hi57 : i < 57 := by
      have := List.length_take 57 t
      omega
    have heq : optimize_title_length t = t.take i := by
      unfold optimize_title_length
      rw [if_neg (by omega)]
      dsimp only
      rw [hfind]
      dsimp only
      rw [if_pos hi, List.take_take, min_eq_left (by omega)]
    have hgt : t[i]? = some ' ' := by
      rw [← hget, List.getElem?_take_of_lt hi57]
    refine ⟨heq, hgt, Or.inr ?_⟩
    rw [heq, List.length_take, min_eq_left (by omega), List.head?_drop, hgt]
  · intro t hlen hno
    unfold optimize_title_length
    rw [if_neg (by omega)]
    dsimp only
    cases hfind : rFind ' ' (t.take 57) with
    | none => rfl
    | some i =>
      dsimp only
      rw [if_neg (by have := hno i hfind; omega)]

/-- Witness for C7: a short title passes unchanged, and a long title with a
late space is cut at that space. -/
theorem C7_title_length_optimizer_witness :
    optimize_title_length (S "Short title") = S "Short title"
    ∧ endsAtWordBoundary
        (S "This is a fairly long title that keeps going and going beyond sixty")
        (optimize_title_length
          (S "This is a fairly long title that keeps going and going beyond sixty")) := by
  constructor
  · exact C7_title_length_optimizer.2.1 _ (by decide)
  · exact (C7_title_length_optimizer.2.2.2.1 _ 54 (by decide) (by decide) (by decide)).2.2

/-! ## C5 and C10: language-detection fallback heuristics -/

theorem detect_language_fallback_def (s : Str) :
    detect_language_fallback s =
      (if (s.filter (fun c => !(c = ' '))).length = 0 then S "en"
       else if 10 * (s.filter isHan).length > (s.filter (fun c => !(c = ' '))).length
         then S "zh-cn"
       else if 10 * (s.filter isHangul).length > (s.filter (fun c => !(c = ' '))).length
         then S "ko"
       else if 10 * (s.filter isKanaOrHan).length > (s.filter (fun c => !(c = ' '))).length
         then S "ja"
       else S "en") := rfl

theorem heuristic_language_detection_def (s : Str) :
    heuristic_language_detection s =
      (if s = [] then S "en"
       else if s.length > 0 then
         (if 10 * (s.filter isHan).length > s.length then S "zh-cn" else S "en")
       else S "en") := rfl

theorem filter_length_mono {p q : Char → Bool} (himp : ∀ c, p c = true → q c = true)
    (l : Str) : (l.filter p).length ≤ (l.filter q).length := by
  induction l with
  | nil => simp
  | cons a t ih =>
    by_cases hp : p a = true
    · rw [List.filter_cons_of_pos hp, List.filter_cons_of_pos (himp a hp)]
      simpa using ih
    · rw [List.filter_cons_of_neg (by simpa using hp)]
      by_cases hq : q a = true
      · rw [List.filter_cons_of_pos hq]
        simp only [List.length_cons]
        omega
      · rw [List.filter_cons_of_neg (by simpa using hq)]
        exact ih

theorem isHan_nonspace : ∀ c, isHan c = true → (!(c = ' ')) = true := by
  intro c hc
  simp only [isHan, Bool.and_eq_true, decide_eq_true_eq] at hc
  have : ¬ (c = ' ') := by
    intro he
    subst he
    have h32 : (' ').toNat = 32 := rfl
    omega
  simp [this]

theorem isHangul_nonspace : ∀ c, isHangul c = true → (!(c = ' ')) = true := by
  intro c hc
  simp only [isHangul, Bool.and_eq_true, decide_eq_true_eq] at hc
  have : ¬ (c = ' ') := by
    intro he
    subst he
    have h32 : (' ').toNat = 32 := rfl
    omega
  simp [this]

theorem isHan_ascii {c : Char} (h : c.toNat < 128) : isHan c = false := by
  unfold isHan
  rw [decide_eq_false (by omega)]
  rfl

theorem isHangul_ascii {c : Char} (h : c.toNat < 128) : isHangul c = false := by
  unfold isHangul
  rw [decide_eq_false (by omega)]
  rfl

theorem isKanaOrHan_ascii {c : Char} (h : c.toNat < 128) : isKanaOrHan c = false := by
  unfold isKanaOrHan
  rw [decide_eq_false (p := 0x3040 ≤ c.toNat) (by omega),
    decide_eq_false (p := 0x30a0 ≤ c.toNat) (by omega), isHan_ascii h]
  rfl

theorem filter_han_ascii {s : Str} (h : asciiOnly s) : s.filter isHan = [] :=
  List.filter_eq_nil_iff.mpr (fun c hc => by simp [isHan_ascii (h c hc)])

theorem filter_hangul_ascii {s : Str} (h : asciiOnly s) : s.filter isHangul = [] :=
  List.filter_eq_nil_iff.mpr (fun c hc => by simp [isHangul_ascii (h c hc)])

theorem filter_kana_ascii {s : Str} (h : asciiOnly s) : s.filter isKanaOrHan = [] :=
  List.filter_eq_nil_iff.mpr (fun c hc => by simp [isKanaOrHan_ascii (h c hc)])

/-- C5: The language-detection fallbacks are total — every input yields one of
the four language codes, with English for empty input — and the heuristic
returns the Chinese code whenever the CJK-ideograph count exceeds 10% of the
character count, and English for plain ASCII text.  This holds for both
_detect_language_fallback (ideograph count against non-space characters) and
LanguageDetector._heuristic_language_detection (against all characters). -/
theorem C5_language_detector_total_and_fallback :
    (∀ s : Str, detect_language_fallback s = S "en" ∨ detect_language_fallback s = S "zh-cn"
        ∨ detect_language_fallback s = S "ko" ∨ detect_language_fallback s = S "ja")
    ∧ detect_language_fallback [] = S "en"
    ∧ (∀ s : Str, 10 * (s.filter isHan).length > (s.filter (fun c => !(c = ' '))).length →
        detect_language_fallback s = S "zh-cn")
    ∧ (∀ s : Str, asciiOnly s → detect_language_fallback s = S "en")
    ∧ heuristic_language_detection [] = S "en"
    ∧ (∀ s : Str, 10 * (s.filter isHan).length > s.length →
        heuristic_language_detection s = S "zh-cn")
    ∧ (∀ s : Str, asciiOnly s → heuristic_language_detection s = S "en") := by
  refine ⟨?_, rfl, ?_, ?_, rfl, ?_, ?_⟩
  · intro s
    rw [detect_language_fallback_def]
    split_ifs
    · exact Or.inl rfl
    · exact Or.inr (Or.inl rfl)
    · exact Or.inr (Or.inr (Or.inl rfl))
    · exact Or.inr (Or.inr (Or.inr rfl))
    · exact Or.inl rfl
  · intro s h
    rw [detect_language_fallback_def]
    have hle := filter_length_mono isHan_nonspace s
    rw [if_neg (by omega), if_pos h]
  · intro s h
    rw [detect_language_fallback_def, filter_han_ascii h, filter_hangul_ascii h,
      filter_kana_ascii h]
    simp
  · intro s h
    by_cases hs : s = []
    · subst hs
      simp at h
    · rw [heuristic_language_detection_def, if_neg hs,
        if_pos (by simpa using List.length_pos.mpr hs), if_pos h]
  · intro s h
    by_cases hs : s = []
    · subst hs
      rfl
    · rw [heuristic_language_detection_def, if_neg hs,
        if_pos (by simpa using List.length_pos.mpr hs), filter_han_ascii h]
      simp

/-- Witness for C5: a three-ideograph text is classified Chinese by both
fallbacks, and a plain ASCII text is classified English. -/
theorem C5_language_detector_witness :
    detect_language_fallback (S "漢字漢字 x") = S "zh-cn"
    ∧ detect_language_fallback (S "hello world") = S "en"
    ∧ heuristic_language_detection (S "漢字 a") = S "zh-cn"
    ∧ heuristic_language_detection (S "plain ascii") = S "en" := by
  refine ⟨?_, ?_, ?_, ?_⟩
  · exact C5_language_detector_total_and_fallback.2.2.1 _ (by decide)
  · exact C5_language_detector_total_and_fallback.2.2.2.1 _ (by decide)
  · exact C5_language_detector_total_and_fallback.2.2.2.2.2.1 _ (by decide)
  · exact C5_language_detector_total_and_fallback.2.2.2.2.2.2 _ (by decide)

/-- C10: The heuristic fallback checks scripts in the fixed order Chinese,
Korean, Japanese: every text whose ideograph count exceeds 10% of the non-space
characters is classified zh-cn (never ja, however many Kana it contains); ja is
returned only when the Kana-plus-ideograph count exceeds the 10% threshold
while the ideograph count alone does not; and Korean takes priority over
Japanese. -/
theorem C10_fallback_script_priority :
    (∀ s : Str, 10 * (s.filter isHan).length > (s.filter (fun c => !(c = ' '))).length →
        detect_language_fallback s = S "zh-cn")
    ∧ (∀ s : Str, detect_language_fallback s = S "ja" →
        10 * (s.filter isKanaOrHan).length > (s.filter (fun c => !(c = ' '))).length
          ∧ ¬ 10 * (s.filter isHan).length > (s.filter (fun c => !(c = ' '))).length)
    ∧ (∀ s : Str, 10 * (s.filter isHangul).length > (s.filter (fun c => !(c = ' '))).length →
        ¬ 10 * (s.filter isHan).length > (s.filter (fun c => !(c = ' '))).length →
        detect_language_fallback s = S "ko") := by
  refine ⟨?_, ?_, ?_⟩
  · intro s h
    have hle := filter_length_mono isHan_nonspace s
    rw [detect_language_fallback_def, if_neg (by omega), if_pos h]
  · intro s h
    rw [detect_language_fallback_def] at h
    split_ifs at h with h1 h2 h3 h4
    · exact absurd h (by decide)
    · exact absurd h (by decide)
    · exact absurd h (by decide)
    · exact ⟨h4, h2⟩
    · exact absurd h (by decide)
  · intro s hko hzh
    have hle := filter_length_mono isHangul_nonspace s
    rw [detect_language_fallback_def, if_neg (by omega), if_neg hzh, if_pos hko]

/-- Witness for C10: ideograph-heavy text with Kana is zh-cn, pure Kana text is
ja (and satisfies the stated necessary condition), Hangul text is ko. -/
theorem C10_fallback_script_priority_witness :
    detect_language_fallback (S "漢字とひらがな") = S "zh-cn"
    ∧ (10 * ((S "ひらがな").filter isKanaOrHan).length
          > ((S "ひらがな").filter (fun c => !(c = ' '))).length
        ∧ ¬ 10 * ((S "ひらがな").filter isHan).length
          > ((S "ひらがな").filter (fun c => !(c = ' '))).length)
    ∧ detect_language_fallback (S "한국어 텍스트") = S "ko" := by
  refine ⟨?_, ?_, ?_⟩
  · exact C10_fallback_script_priority.1 _ (by decide)
  · exact C10_fallback_script_priority.2.1 _ (by decide)
  · exact C10_fallback_script_priority.2.2 _ (by decide) (by decide)

/-! ## C2 and C3: slug derivation -/

theorem post_slug_eq (t v : Str) :
    post_slug t v = (slugifyModel t).take 100 ++ '-' :: v.take 8 := by
  unfold post_slug
  dsimp only
  split
  · rfl
  · rename_i h
    rw [List.take_of_length_le (show (slugifyModel t).length ≤ 100 by omega)]

theorem slugShape_spec {s : Str} (h : slugShape s = true) :
    s ≠ [] ∧ (∀ c ∈ s, alnumLower c = true ∨ c = '-')
      ∧ (∀ c, s.head? = some c → alnumLower c = true)
      ∧ (∀ c, s.getLast? = some c → alnumLower c = true)
      ∧ ¬ (S "--") <:+: s := by
  unfold slugShape at h
  simp only [Bool.and_eq_true] at h
  obtain ⟨⟨⟨⟨h1, h2⟩, h3⟩, h4⟩, h5⟩ := h
  refine ⟨?_, ?_, ?_, ?_, ?_⟩
  · intro he
    subst he
    simp at h1
  · intro c hc
    have hx := List.all_eq_true.mp h2 c hc
    simp only [Bool.or_eq_true, decide_eq_true_eq] at hx
    exact hx
  · intro c hc
    rw [hc] at h3
    exact h3
  · intro c hc
    rw [hc] at h4
    exact h4
  · intro hi
    rw [hasSub_of_infx hi] at h5
    cases h5

theorem slugShape_intro {s : Str} (h1 : s ≠ [])
    (h2 : ∀ c ∈ s, alnumLower c = true ∨ c = '-')
    (h3 : ∀ c, s.head? = some c → alnumLower c = true)
    (h4 : ∀ c, s.getLast? = some c → alnumLower c = true)
    (h5 : ¬ (S "--") <:+: s) : slugShape s = true := by
  unfold slugShape
  simp only [Bool.and_eq_true]
  refine ⟨⟨⟨⟨?_, ?_⟩, ?_⟩, ?_⟩, ?_⟩
  · simpa using h1
  · apply List.all_eq_true.mpr
    intro c hc
    rcases h2 c hc with ha | rfl
    · simp [ha]
    · simp
  · cases hh : s.head? with
    | none => exact absurd (by simpa using hh) h1
    | some c => exact h3 c hh
  · cases hh : s.getLast? with
    | none => exact absurd (by simpa using hh) h1
    | some c => exact h4 c hh
  · cases hhs : hasSub (S "--") s with
    | false => rfl
    | true => exact absurd (infix_of_hasSub hhs) h5

theorem dash_mem_of_part {q : Str} (hq : q ≠ []) (hsub : q.Sublist (S "--")) :
    '-' ∈ q := by
  cases q with
  | nil => exact absurd rfl hq
  | cons c cs =>
    have hm : c ∈ S "--" := hsub.subset (List.mem_cons_self c cs)
    have : c = '-' := by
      rcases List.mem_cons.mp hm with rfl | hm'
      · rfl
      · rcases List.mem_cons.mp hm' with rfl | hm''
        · rfl
        · cases hm''
    rw [this]
    exact List.mem_cons_self _ _

theorem slugShape_append_suffix {b sfx : Str} (hb : slugShape b = true)
    (hs : sfx.all alnumLower = true) (hne : sfx ≠ []) :
    slugShape (b ++ '-' :: sfx) = true := by
  obtain ⟨hb1, hb2, hb3, hb4, hb5⟩ := slugShape_spec hb
  have hsall : ∀ c ∈ sfx, alnumLower c = true := fun c hc => List.all_eq_true.mp hs c hc
  apply slugShape_intro
  · intro he
    exact hb1 (List.append_eq_nil.mp he).1
  · intro c hc
    rcases List.mem_append.mp hc with hcb | hcs
    · exact hb2 c hcb
    · rcases List.mem_cons.mp hcs with rfl | hcs'
      · exact Or.inr rfl
      · exact Or.inl (hsall c hcs')
  · intro c hc
    rw [head?_append_left _ hb1] at hc
    exact hb3 c hc
  · intro c hc
    rw [getLast?_append_right (by simp)] at hc
    have hgl : ('-' :: sfx).getLast? = sfx.getLast? := by
      cases sfx with
      | nil => exact absurd rfl hne
      | cons d ds => rw [List.getLast?_cons_cons]
    rw [hgl] at hc
    exact hsall c (mem_of_getLast?_eq hc)
  · intro hi
    rcases infix_split hi with h1 | h1 | ⟨p1, p2, hp, hp1, hp2, hs1, _⟩
    · exact hb5 h1
    · rcases infix_split (show (S "--") <:+: ['-'] ++ sfx from h1)
        with g1 | g1 | ⟨q1, q2, hq, hq1, hq2, _, ht2⟩
      · have := g1.sublist.length_le
        rw [show (S "--").length = 2 from rfl] at this
        simp at this
      · have hd : '-' ∈ sfx := g1.sublist.subset (by decide)
        have := hsall '-' hd
        simp [alnumLower] at this
      · have hq2sub : q2.Sublist (S "--") := by
          have : q2 <:+ S "--" := ⟨q1, hq.symm⟩
          exact this.sublist
        have hdq : '-' ∈ q2 := dash_mem_of_part hq2 hq2sub
        have hd : '-' ∈ sfx := ht2.sublist.subset hdq
        have := hsall '-' hd
        simp [alnumLower] at this
    · have hlen : p1.length + p2.length = 2 := by
        have := congrArg List.length hp
        simp only [List.length_append] at this
        exact this.symm ▸ rfl
      have hp1len : p1.length = 1 := by
        have l1 : 1 ≤ p1.length := List.length_pos.mpr hp1
        have l2 : 1 ≤ p2.length := List.length_pos.mpr hp2
        omega
      obtain ⟨c, rfl⟩ : ∃ c, p1 = [c] := List.length_eq_one.mp hp1len
      have hcd : c = '-' := by
        have hm : c ∈ S "--" := by
          rw [hp]
          exact List.mem_append_left _ (List.mem_cons_self _ _)
        rcases List.mem_cons.mp hm with rfl | hm'
        · rfl
        · rcases List.mem_cons.mp hm' with rfl | hm''
          · rfl
          · cases hm''
      have hlast : b.getLast? = some '-' := by
        rw [← getLast?_of_sfx hs1 (by simp)]
        simp [hcd]
      have := hb4 '-' hlast
      simp [alnumLower] at this

/-- C2 (counterexample): for the punctuation-only title "!!!" the cleaned slug
body is empty, so the derived slug is "-aaaaaaaa", which has a leading hyphen
and does not match the claimed shape. -/
theorem C2_counterexample :
    slugShape (post_slug (S "!!!") (S "aaaaaaaaaaa")) = false
    ∧ post_slug (S "!!!") (S "aaaaaaaaaaa") = S "-aaaaaaaa" := by decide

/-- C2 (amended): the slug derivation is deterministic, and its output length
is at most 100 + 1 + 8 characters, for every title and id; the claimed shape
additionally holds whenever the truncated cleaned title body itself matches the
shape and the first 8 characters of the id are non-empty lowercase
alphanumerics. -/
theorem C2_slug_determinism_length_shape :
    (∀ t₁ t₂ v₁ v₂ : Str, t₁ = t₂ → v₁ = v₂ → post_slug t₁ v₁ = post_slug t₂ v₂)
    ∧ (∀ t v : Str, (post_slug t v).length ≤ 100 + 1 + 8)
    ∧ (∀ t v : Str, slugShape ((slugifyModel t).take 100) = true →
        (v.take 8).all alnumLower = true → v ≠ [] →
        slugShape (post_slug t v) = true) := by
  refine ⟨?_, ?_, ?_⟩
  · intro t₁ t₂ v₁ v₂ h1 h2
    rw [h1, h2]
  · intro t v
    rw [post_slug_eq]
    have h1 := List.length_take 100 (slugifyModel t)
    have h2 := List.length_take 8 v
    simp only [List.length_append, List.length_cons]
    omega
  · intro t v hb hs hv
    rw [post_slug_eq]
    apply slugShape_append_suffix hb hs
    intro he
    have hlen := congrArg List.length he
    rw [List.length_take] at hlen
    simp only [List.length_nil] at hlen
    exact hv (List.length_eq_zero.mp (by omega))

/-- Witness for C2 at the concrete title "My Great Video" and id
"aaaaaaaaaaa". -/
theorem C2_slug_witness :
    slugShape (post_slug (S "My Great Video") (S "aaaaaaaaaaa")) = true :=
  C2_slug_determinism_length_shape.2.2 (S "My Great Video") (S "aaaaaaaaaaa")
    (by decide) (by decide) (by decide)

/-- C3: the video-id suffix is appended after the 100-character truncation, so
it is always a suffix of the final slug; the two videos with identical title
"My Great Video" and ids aaaaaaaaaaa / bbbbbbbbbbb receive the distinct slugs
my-great-video-aaaaaaaa and my-great-video-bbbbbbbb. -/
theorem C3_slug_id_suffix_preserved :
    (∀ t v : Str, ('-' :: v.take 8) <:+ post_slug t v)
    ∧ post_slug (S "My Great Video") (S "aaaaaaaaaaa") = S "my-great-video-aaaaaaaa"
    ∧ post_slug (S "My Great Video") (S "bbbbbbbbbbb") = S "my-great-video-bbbbbbbb"
    ∧ post_slug (S "My Great Video") (S "aaaaaaaaaaa")
        ≠ post_slug (S "My Great Video") (S "bbbbbbbbbbb") := by
  refine ⟨?_, by decide, by decide, by decide⟩
  intro t v
  rw [post_slug_eq]
  exact List.suffix_append _ _

/-! ## C1: idempotent publication -/

theorem generated_filename_md (g : GenInputs) (vid : Str) (category : Option Str)
    (language : Str) (cfg : Cfg) (thumbLine : Option Str) :
    (S ".md").isSuffixOf (generate_post_data g vid category language cfg thumbLine).filename
      = true := by
  apply List.isSuffixOf_iff_suffix.mpr
  unfold generate_post_data
  dsimp only
  exact List.suffix_append _ _

theorem ytline_infix_saved (pd : PostData) (cfg : Cfg) :
    hasSub (S "youtube_id: " ++ pd.youtube_id)
      (S "---\n" ++ create_front_matter_int pd cfg ++ S "---\n\n"
        ++ (pd.summary ++ S "\n\n") ++ pd.content) = true := by
  apply hasSub_of_infx
  have h1 : (S "youtube_id: " ++ pd.youtube_id) <:+: create_front_matter_int pd cfg := by
    unfold create_front_matter_int
    exact infix_of_mem_joinSep (by simp)
  refine h1.trans ⟨S "---\n",
    S "---\n\n" ++ (pd.summary ++ S "\n\n") ++ pd.content, ?_⟩
  simp [List.append_assoc]

theorem writeFile_fresh {dir : Dir} {name content : Str}
    (h : dir.any (fun f => decide (f.1 = name)) = false) :
    writeFile dir name content = dir ++ [(name, content)] := by
  unfold writeFile
  rw [h]
  rfl

theorem find?_none_of_check_none {dir : Dir} {vid : Str}
    (h : check_existing_post dir vid = none) :
    dir.find? (fun f => hasSub (S "youtube_id: " ++ vid) f.2) = none := by
  unfold check_existing_post at h
  exact Option.map_eq_none'.mp h

theorem check_existing_post_append_found {dir : Dir} {vid fname content : Str}
    (hnone : check_existing_post dir vid = none)
    (hmatch : hasSub (S "youtube_id: " ++ vid) content = true) :
    check_existing_post (dir ++ [(fname, content)]) vid = some fname := by
  unfold check_existing_post
  rw [List.find?_append, find?_none_of_check_none hnone]
  simp [List.find?_cons, hmatch]

theorem countMatching_of_append_match {dir : Dir} {vid fname content : Str}
    (hnone : check_existing_post dir vid = none)
    (hmatch : hasSub (S "youtube_id: " ++ vid) content = true) :
    countMatching (dir ++ [(fname, content)]) vid = 1 := by
  unfold countMatching
  rw [List.filter_append]
  rw [List.filter_eq_nil_iff.mpr (List.find?_eq_none.mp (find?_none_of_check_none hnone))]
  simp [hmatch]

/-- C1: Publication is idempotent per external video id.  First conjunct: if a
document whose text contains the youtube_id front-matter line for the video
already exists in the output directory, processing the same video without the
force flag returns that document's path with the already-exists status and
leaves the directory — hence every existing document's content — unchanged,
independently of the generation inputs (no regeneration).  Second conjunct:
publishing a fresh video id saves exactly one document containing that line,
and processing the same id again returns the saved document's path with the
already-exists status and an unchanged directory. -/
theorem C1_publication_idempotent :
    (∀ (dir : Dir) (vid p : Str) (g : GenInputs) (category : Option Str)
        (language : Str) (thumbLine : Option Str) (cfg : Cfg),
      check_existing_post dir vid = some p →
      process_single_video dir vid false g category language thumbLine cfg
        = { status := .already_exists, post_path := some p, dir := dir })
    ∧ (∀ (dir : Dir) (vid : Str) (g : GenInputs) (category : Option Str)
        (language : Str) (thumbLine : Option Str) (cfg : Cfg),
      check_existing_post dir vid = none →
      dir.any (fun f =>
        decide (f.1 = (generate_post_data g vid category language cfg thumbLine).filename))
          = false →
      (process_single_video dir vid false g category language thumbLine cfg).status
          = .created
        ∧ (process_single_video dir vid false g category language thumbLine cfg).post_path
          = some (generate_post_data g vid category language cfg thumbLine).filename
        ∧ countMatching
            (process_single_video dir vid false g category language thumbLine cfg).dir vid
          = 1
        ∧ process_single_video
            (process_single_video dir vid false g category language thumbLine cfg).dir
            vid false g category language thumbLine cfg
          = { status := .already_exists,
              post_path := some (generate_post_data g vid category language cfg thumbLine).filename,
              dir := (process_single_video dir vid false g category language thumbLine cfg).dir }) := by
  constructor
  · intro dir vid p g category language thumbLine cfg hsome
    unfold process_single_video
    rw [if_pos rfl, hsome]
  · intro dir vid g category language thumbLine cfg hnone hfresh
    have hmd := generated_filename_md g vid category language cfg thumbLine
    set pd := generate_post_data g vid category language cfg thumbLine with hpd
    have hyt : hasSub (S "youtube_id: " ++ vid)
        (S "---\n" ++ create_front_matter_int pd cfg ++ S "---\n\n"
          ++ (pd.summary ++ S "\n\n") ++ pd.content) = true := by
      have hy : pd.youtube_id = vid := rfl
      have := ytline_infix_saved pd cfg
      rwa [hy] at this
    have hsave : save_post dir pd cfg
        = .ok (pd.filename,
            dir ++ [(pd.filename,
              S "---\n" ++ create_front_matter_int pd cfg ++ S "---\n\n"
                ++ (pd.summary ++ S "\n\n") ++ pd.content)]) := by
      unfold save_post
      rw [hmd]
      simp only [Bool.not_true, Bool.false_eq_true, if_false]
      rw [writeFile_fresh hfresh]
    have hr₁ : process_single_video dir vid false g category language thumbLine cfg
        = { status := .created, post_path := some pd.filename,
            dir := dir ++ [(pd.filename,
              S "---\n" ++ create_front_matter_int pd cfg ++ S "---\n\n"
                ++ (pd.summary ++ S "\n\n") ++ pd.content)] } := by
      unfold process_single_video
      rw [if_pos rfl, hnone]
      dsimp only
      unfold publishGenerated
      dsimp only
      rw [← hpd, hsave]
    rw [hr₁]
    refine ⟨rfl, rfl, ?_, ?_⟩
    · exact countMatching_of_append_match hnone hyt
    · have hcheck := @check_existing_post_append_found _ _ pd.filename _ hnone hyt
      unfold process_single_video
      rw [if_pos rfl]
      dsimp only
      rw [hcheck]

/-- Witness for C1: publishing video id abcdefghijk into an empty directory
creates one matching document, and a second run returns it unchanged with the
already-exists status. -/
theorem C1_publication_idempotent_witness :
    (process_single_video [] (S "abcdefghijk") false
        { title := S "My Title", content := S "body text", summary := S "sum",
          tags := [S "t1", S "t2"], dateIso := S "2024-01-01T00:00:00",
          datePrefix := S "2024-01-01" }
        none (S "en") none
        { defaultCategory := S "General", defaultAuthor := S "Author",
          nowIso := S "2024-01-01T00:00:00" }).status = .created
    ∧ countMatching
        (process_single_video [] (S "abcdefghijk") false
          { title := S "My Title", content := S "body text", summary := S "sum",
            tags := [S "t1", S "t2"], dateIso := S "2024-01-01T00:00:00",
            datePrefix := S "2024-01-01" }
          none (S "en") none
          { defaultCategory := S "General", defaultAuthor := S "Author",
            nowIso := S "2024-01-01T00:00:00" }).dir (S "abcdefghijk") = 1
    ∧ process_single_video
        (process_single_video [] (S "abcdefghijk") false
          { title := S "My Title", content := S "body text", summary := S "sum",
            tags := [S "t1", S "t2"], dateIso := S "2024-01-01T00:00:00",
            datePrefix := S "2024-01-01" }
          none (S "en") none
          { defaultCategory := S "General", defaultAuthor := S "Author",
            nowIso := S "2024-01-01T00:00:00" }).dir
        (S "abcdefghijk") false
        { title := S "My Title", content := S "body text", summary := S "sum",
          tags := [S "t1", S "t2"], dateIso := S "2024-01-01T00:00:00",
          datePrefix := S "2024-01-01" }
        none (S "en") none
        { defaultCategory := S "General", defaultAuthor := S "Author",
          nowIso := S "2024-01-01T00:00:00" }
      = { status := .already_exists,
          post_path := some (generate_post_data
            { title := S "My Title", content := S "body text", summary := S "sum",
              tags := [S "t1", S "t2"], dateIso := S "2024-01-01T00:00:00",
              datePrefix := S "2024-01-01" }
            (S "abcdefghijk") none (S "en")
            { defaultCategory := S "General", defaultAuthor := S "Author",
              nowIso := S "2024-01-01T00:00:00" } none).filename,
          dir := (process_single_video [] (S "abcdefghijk") false
            { title := S "My Title", content := S "body text", summary := S "sum",
              tags := [S "t1", S "t2"], dateIso := S "2024-01-01T00:00:00",
              datePrefix := S "2024-01-01" }
            none (S "en") none
            { defaultCategory := S "General", defaultAuthor := S "Author",
              nowIso := S "2024-01-01T00:00:00" }).dir } := by
  have h := C1_publication_idempotent.2 [] (S "abcdefghijk")
    { title := S "My Title", content := S "body text", summary := S "sum",
      tags := [S "t1", S "t2"], dateIso := S "2024-01-01T00:00:00",
      datePrefix := S "2024-01-01" }
    none (S "en") none
    { defaultCategory := S "General", defaultAuthor := S "Author",
      nowIso := S "2024-01-01T00:00:00" }
    rfl rfl
  exact ⟨h.1, h.2.2.1, h.2.2.2⟩

/-! ## C8: interrupted writes -/

/-- C8 (counterexample): the write is in place, so interrupting it can leave a
partial prefix at the target path that still parses as a valid published
document: cutting this 75-character document at 60 characters keeps both
markers and the required fields, and the validator accepts it. -/
theorem C8_counterexample :
    writeInterrupted none
        (S "---\ntitle: T\ndate: 2024-01-01\nauthor: A\n---\n\nBody text here with more words")
        61
      = some ((S "---\ntitle: T\ndate: 2024-01-01\nauthor: A\n---\n\nBody text here with more words").take 60)
    ∧ (validate_front_matter
        ((S "---\ntitle: T\ndate: 2024-01-01\nauthor: A\n---\n\nBody text here with more words").take 60)).valid
      = true
    ∧ (S "---\ntitle: T\ndate: 2024-01-01\nauthor: A\n---\n\nBody text here with more words").take 60
      ≠ S "---\ntitle: T\ndate: 2024-01-01\nauthor: A\n---\n\nBody text here with more words" := by
  refine ⟨rfl, by decide, by decide⟩

/-- C8 (amended): save_post / save_markdown_post write the document in place:
open(path, 'w') truncates the target and the content is then written, so an
interrupted write leaves a prefix of the new content at the target (the
previous content is lost as soon as the write begins); a completed write leaves
exactly the full content; interruption immediately after the truncating open
leaves an empty file, which does not validate; but a later cut can leave a
prefix that validates as a published document (see the counterexample), so the
write is not all-or-nothing. -/
theorem C8_write_not_atomic :
    (∀ (old : Option Str) (content : Str) (k : Nat), 1 ≤ k →
        writeInterrupted old content k = some (content.take (k - 1)))
    ∧ (∀ (old : Option Str) (content : Str),
        writeInterrupted old content (content.length + 1) = some content)
    ∧ (∀ (old : Option Str) (content : Str),
        writeInterrupted old content 1 = some []
          ∧ (validate_front_matter []).valid = false) := by
  refine ⟨?_, ?_, ?_⟩
  · intro old content k hk
    unfold writeInterrupted
    rw [if_neg (by omega)]
  · intro old content
    unfold writeInterrupted
    rw [if_neg (by omega)]
    simp
  · intro old content
    exact ⟨rfl, rfl⟩

/-- Witness for C8: writing "xyz" over a previous file, interrupted after one
character, leaves "x"; completed, leaves "xyz". -/
theorem C8_write_not_atomic_witness :
    writeInterrupted (some (S "previous")) (S "xyz") 2 = some (S "x")
    ∧ writeInterrupted (some (S "previous")) (S "xyz") 4 = some (S "xyz")
    ∧ writeInterrupted (some (S "previous")) (S "xyz") 1 = some [] := by
  refine ⟨?_, ?_, ?_⟩
  · exact C8_write_not_atomic.1 (some (S "previous")) (S "xyz") 2 (by decide)
  · exact C8_write_not_atomic.2.1 (some (S "previous")) (S "xyz")
  · exact (C8_write_not_atomic.2.2 (some (S "previous")) (S "xyz")).1

/-! ## C6: front-matter round trip -/

theorem validate_generic (fmx tail : Str)
    (hno : ¬ (S "---") <:+: fmx ++ S "\n--") :
    validate_front_matter (S "---\n" ++ (fmx ++ ('\n' :: (S "---" ++ tail))))
      = { valid := requiredFieldOk ((splitNL (stripWs (fmx ++ S "\n"))).filterMap parseFMLine)
              (S "title")
            && requiredFieldOk ((splitNL (stripWs (fmx ++ S "\n"))).filterMap parseFMLine)
              (S "date")
            && requiredFieldOk ((splitNL (stripWs (fmx ++ S "\n"))).filterMap parseFMLine)
              (S "author"),
          entries := (splitNL (stripWs (fmx ++ S "\n"))).filterMap parseFMLine,
          titleQuoted :=
            match fmLookup ((splitNL (stripWs (fmx ++ S "\n"))).filterMap parseFMLine)
                (S "title") with
            | some t => (S "\"").isPrefixOf t && (S "\"").isSuffixOf t
            | none => false } := by
  unfold validate_front_matter
  have hpfx : (S "---").isPrefixOf (S "---\n" ++ (fmx ++ ('\n' :: (S "---" ++ tail)))) = true :=
    List.isPrefixOf_iff_prefix.mpr ⟨'\n' :: (fmx ++ ('\n' :: (S "---" ++ tail))), rfl⟩
  rw [hpfx]
  simp only [Bool.not_true, Bool.false_eq_true, if_false]
  rw [findFrom_marker fmx tail hno]
  dsimp only
  rw [Nat.add_sub_cancel_left]
  have hd4 : (S "---\n" ++ (fmx ++ ('\n' :: (S "---" ++ tail)))).drop 4
      = fmx ++ ('\n' :: (S "---" ++ tail)) := by
    have h0 := @List.drop_append Char (S "---\n")
      (fmx ++ ('\n' :: (S "---" ++ tail))) 0
    rw [show (S "---\n").length = 4 from rfl] at h0
    simpa using h0
  rw [hd4]
  have htake : (fmx ++ ('\n' :: (S "---" ++ tail))).take (fmx.length + 1) = fmx ++ S "\n" := by
    rw [List.take_append 1]
    rfl
  rw [htake]

theorem validate_joined_lines (ls : List Str) (summary body : Str)
    (hne : ls ≠ [])
    (hnl : ∀ l ∈ ls, '\n' ∉ l)
    (hnm : ∀ l ∈ ls, ¬ (S "---") <:+: l)
    (hhead : ∀ c, (joinSep (S "\n") ls).head? = some c → c.isWhitespace = false)
    (hlast : ∀ c, (joinSep (S "\n") ls).getLast? = some c → c.isWhitespace = false) :
    validate_front_matter
        (full_markdown_ai (joinSep (S "\n") ls ++ S "\n") summary body)
      = { valid := requiredFieldOk (ls.filterMap parseFMLine) (S "title")
            && requiredFieldOk (ls.filterMap parseFMLine) (S "date")
            && requiredFieldOk (ls.filterMap parseFMLine) (S "author"),
          entries := ls.filterMap parseFMLine,
          titleQuoted :=
            match fmLookup (ls.filterMap parseFMLine) (S "title") with
            | some t => (S "\"").isPrefixOf t && (S "\"").isSuffixOf t
            | none => false } := by
  have hdoc : full_markdown_ai (joinSep (S "\n") ls ++ S "\n") summary body
      = S "---\n" ++ ((joinSep (S "\n") ls ++ S "\n")
          ++ ('\n' :: (S "---" ++ (S "\n\n" ++ (summary ++ (S "\n\n" ++ body)))))) := by
    unfold full_markdown_ai
    simp only [List.append_assoc]
    rfl
  rw [hdoc]
  have hJno : ¬ (S "---") <:+: joinSep (S "\n") ls := by
    intro h
    obtain ⟨l, hl, hinf⟩ := infix_mem_of_infix_joinSep (by decide) (by decide) h
    exact hnm l hl hinf
  have hno : ¬ (S "---") <:+: (joinSep (S "\n") ls ++ S "\n") ++ S "\n--" :=
    no_marker_append_nl_head
      (no_marker_append_nl_head hJno (not_infix_of_hasSub_false (by decide)) rfl)
      (not_infix_of_hasSub_false (by decide)) rfl
  rw [validate_generic _ _ hno]
  have hsh : (joinSep (S "\n") ls ++ S "\n") ++ S "\n" = joinSep (S "\n") ls ++ S "\n\n" := by
    rw [List.append_assoc]
    rfl
  rw [hsh, stripWs_append_double_newline hhead hlast, splitNL_joinSep hne hnl]

theorem append_ne_nil_left {x y : Str} (h : x ≠ []) : x ++ y ≠ [] := by
  intro he
  exact h (List.append_eq_nil.mp he).1

theorem contains_singleton_false {c d : Char} (h : ¬ c = d) : ([d].contains c) = false := by
  simpa using h

theorem isEmpty_false_of_ne {v : Str} (h : v ≠ []) : v.isEmpty = false := by
  cases v with
  | nil => exact absurd rfl h
  | cons a t => rfl

theorem isPrefixOf_quote_false {t : Str} (hne : t ≠ [])
    (hh : ∀ c, t.head? = some c → ¬ c = '"') : (S "\"").isPrefixOf t = false := by
  cases t with
  | nil => exact absurd rfl hne
  | cons c rest =>
    have hc := hh c rfl
    show (['"'].isPrefixOf (c :: rest)) = false
    simp [List.isPrefixOf]
    intro he
    exact absurd he.symm hc

theorem keyHead_cond {k : Char} {K : Str} (hK : K.head? = some k)
    (h1 : k.isWhitespace = false) (h2 : ¬ k = '#') :
    ∀ c, K.head? = some c → c.isWhitespace = false ∧ ¬ c = '#' := by
  intro c hc
  rw [hK] at hc
  obtain rfl : k = c := Option.some.inj hc
  exact ⟨h1, h2⟩

theorem parseFMLine_keyline {K v : Str}
    (hKcolon : ':' ∉ K) (hKne : K ≠ [])
    (hKhead : ∀ c, K.head? = some c → c.isWhitespace = false ∧ ¬ c = '#')
    (hKstrip : stripWs K = K)
    (hv : benignVal v = true) :
    parseFMLine (K ++ ':' :: ' ' :: v) = some (K, v) := by
  obtain ⟨hvne, hvnl, hvnm, hvh, hvl⟩ := benignVal_spec hv
  have hgl : (K ++ ':' :: ' ' :: v).getLast? = v.getLast? := by
    rw [getLast?_append_right (by simp), List.getLast?_cons_cons]
    cases v with
    | nil => exact absurd rfl hvne
    | cons d ds => rw [List.getLast?_cons_cons]
  have hline_strip : stripWs (K ++ ':' :: ' ' :: v) = K ++ ':' :: ' ' :: v := by
    apply stripWs_eq_self
    · intro c hc
      rw [head?_append_left _ hKne] at hc
      exact (hKhead c hc).1
    · intro c hc
      rw [hgl] at hc
      exact hvl c hc
  have hnothash : ¬ ((K ++ ':' :: ' ' :: v).head? = some '#') := by
    rw [head?_append_left _ hKne]
    intro he
    exact (hKhead '#' he).2 rfl
  show (if (stripWs (K ++ ':' :: ' ' :: v)).head? = some '#' then none
        else
          match splitFirst ':' (stripWs (K ++ ':' :: ' ' :: v)) with
          | some (k, w) => some (stripWs k, stripWs w)
          | none => none) = some (K, v)
  rw [hline_strip, if_neg hnothash, splitFirst_append hKcolon]
  dsimp only
  rw [hKstrip, stripWs_space_cons hvh hvl]

/-- C6 (amended): for a document assembled by the generator, when each emitted
value is non-empty, newline-free, marker-free and trimmed, and the title's edge
characters are not quote characters, re-parsing the front-matter block recovers
title, date, author, category, the joined tags line, slug and youtube_id
exactly, the document validates, and the recovered title carries no wrapping
quotes. -/
theorem C6_front_matter_roundtrip
    (title date author category slug youtube_id summary body : Str)
    (tags : List Str) (thumb : Option Str)
    (hT : benignVal title = true) (hQ : noQuoteEdges title = true)
    (hD : benignVal date = true) (hA : benignVal author = true)
    (hC : benignVal category = true)
    (hG : benignVal (joinSep (S ", ") tags) = true)
    (hS : benignVal slug = true) (hY : benignVal youtube_id = true)
    (hM : benignVal summary = true)
    (hI : ∀ im, thumb = some im → benignVal im = true) :
    (validate_front_matter (assembled_doc title date author category tags slug
        youtube_id summary body thumb)).valid = true
    ∧ (validate_front_matter (assembled_doc title date author category tags slug
        youtube_id summary body thumb)).titleQuoted = false
    ∧ fmLookup (validate_front_matter (assembled_doc title date author category tags slug
        youtube_id summary body thumb)).entries (S "title") = some title
    ∧ fmLookup (validate_front_matter (assembled_doc title date author category tags slug
        youtube_id summary body thumb)).entries (S "date") = some date
    ∧ fmLookup (validate_front_matter (assembled_doc title date author category tags slug
        youtube_id summary body thumb)).entries (S "author") = some author
    ∧ fmLookup (validate_front_matter (assembled_doc title date author category tags slug
        youtube_id summary body thumb)).entries (S "category") = some category
    ∧ fmLookup (validate_front_matter (assembled_doc title date author category tags slug
        youtube_id summary body thumb)).entries (S "tags") = some (joinSep (S ", ") tags)
    ∧ fmLookup (validate_front_matter (assembled_doc title date author category tags slug
        youtube_id summary body thumb)).entries (S "slug") = some slug
    ∧ fmLookup (validate_front_matter (assembled_doc title date author category tags slug
        youtube_id summary body thumb)).entries (S "youtube_id") = some youtube_id := by
  obtain ⟨hQh, hQl⟩ := noQuoteEdges_spec hQ
  have hstrip1 : stripChars ['"'] title = title := by
    apply stripChars_eq_self
    · intro c hc
      exact contains_singleton_false (fun he => hQh c hc (Or.inl he))
    · intro c hc
      exact contains_singleton_false (fun he => hQl c hc (Or.inl he))
  have hstrip2 : stripChars ['\''] title = title := by
    apply stripChars_eq_self
    · intro c hc
      exact contains_singleton_false (fun he => hQh c hc (Or.inr he))
    · intro c hc
      exact contains_singleton_false (fun he => hQl c hc (Or.inr he))
  obtain ⟨hTne, hTnl, hTnm, hTh, hTl⟩ := benignVal_spec hT
  obtain ⟨hDne, hDnl, hDnm, hDh, hDl⟩ := benignVal_spec hD
  obtain ⟨hAne, hAnl, hAnm, hAh, hAl⟩ := benignVal_spec hA
  obtain ⟨hCne, hCnl, hCnm, hCh, hCl⟩ := benignVal_spec hC
  obtain ⟨hGne, hGnl, hGnm, hGh, hGl⟩ := benignVal_spec hG
  obtain ⟨hSne, hSnl, hSnm, hSh, hSl⟩ := benignVal_spec hS
  obtain ⟨hYne, hYnl, hYnm, hYh, hYl⟩ := benignVal_spec hY
  obtain ⟨hMne, hMnl, hMnm, hMh, hMl⟩ := benignVal_spec hM
  have e1 : parseFMLine (S "title: " ++ title) = some (S "title", title) :=
    parseFMLine_keyline (K := S "title") (v := title) (by decide) (by decide)
      (keyHead_cond rfl (by decide) (by decide)) (by decide) hT
  have e2 : parseFMLine (S "date: " ++ date) = some (S "date", date) :=
    parseFMLine_keyline (K := S "date") (v := date) (by decide) (by decide)
      (keyHead_cond rfl (by decide) (by decide)) (by decide) hD
  have e3 : parseFMLine (S "author: " ++ author) = some (S "author", author) :=
    parseFMLine_keyline (K := S "author") (v := author) (by decide) (by decide)
      (keyHead_cond rfl (by decide) (by decide)) (by decide) hA
  have e4 : parseFMLine (S "category: " ++ category) = some (S "category", category) :=
    parseFMLine_keyline (K := S "category") (v := category) (by decide) (by decide)
      (keyHead_cond rfl (by decide) (by decide)) (by decide) hC
  have e5 : parseFMLine (S "tags: " ++ joinSep (S ", ") tags)
      = some (S "tags", joinSep (S ", ") tags) :=
    parseFMLine_keyline (K := S "tags") (v := joinSep (S ", ") tags) (by decide) (by decide)
      (keyHead_cond rfl (by decide) (by decide)) (by decide) hG
  have e6 : parseFMLine (S "slug: " ++ slug) = some (S "slug", slug) :=
    parseFMLine_keyline (K := S "slug") (v := slug) (by decide) (by decide)
      (keyHead_cond rfl (by decide) (by decide)) (by decide) hS
  have e7 : parseFMLine (S "youtube_id: " ++ youtube_id)
      = some (S "youtube_id", youtube_id) :=
    parseFMLine_keyline (K := S "youtube_id") (v := youtube_id) (by decide) (by decide)
      (keyHead_cond rfl (by decide) (by decide)) (by decide) hY
  have e8 : parseFMLine (S "summary: " ++ summary) = some (S "summary", summary) :=
    parseFMLine_keyline (K := S "summary") (v := summary) (by decide) (by decide)
      (keyHead_cond rfl (by decide) (by decide)) (by decide) hM
  rcases thumb with _ | im
  · -- no thumbnail: eight lines
    have hfm : create_front_matter_ai title date author category tags slug youtube_id
        summary none
        = joinSep (S "\n")
            [S "title: " ++ title, S "date: " ++ date, S "author: " ++ author,
             S "category: " ++ category, S "tags: " ++ joinSep (S ", ") tags,
             S "slug: " ++ slug, S "youtube_id: " ++ youtube_id,
             S "summary: " ++ summary] ++ S "\n" := by
      unfold create_front_matter_ai
      rw [hstrip1, hstrip2]
      dsimp only
      rw [List.append_nil]
    have hnl : ∀ l ∈ ([S "title: " ++ title, S "date: " ++ date, S "author: " ++ author,
        S "category: " ++ category, S "tags: " ++ joinSep (S ", ") tags,
        S "slug: " ++ slug, S "youtube_id: " ++ youtube_id,
        S "summary: " ++ summary] : List Str), '\n' ∉ l := by
      intro l hl
      simp only [List.mem_cons, List.not_mem_nil, or_false] at hl
      rcases hl with rfl | rfl | rfl | rfl | rfl | rfl | rfl | rfl
      · exact not_mem_append (by decide) hTnl
      · exact not_mem_append (by decide) hDnl
      · exact not_mem_append (by decide) hAnl
      · exact not_mem_append (by decide) hCnl
      · exact not_mem_append (by decide) hGnl
      · exact not_mem_append (by decide) hSnl
      · exact not_mem_append (by decide) hYnl
      · exact not_mem_append (by decide) hMnl
    have hnm : ∀ l ∈ ([S "title: " ++ title, S "date: " ++ date, S "author: " ++ author,
        S "category: " ++ category, S "tags: " ++ joinSep (S ", ") tags,
        S "slug: " ++ slug, S "youtube_id: " ++ youtube_id,
        S "summary: " ++ summary] : List Str), ¬ (S "---") <:+: l := by
      intro l hl
      simp only [List.mem_cons, List.not_mem_nil, or_false] at hl
      rcases hl with rfl | rfl | rfl | rfl | rfl | rfl | rfl | rfl
      · exact no_marker_in_keyline (by decide) hTnm
      · exact no_marker_in_keyline (by decide) hDnm
      · exact no_marker_in_keyline (by decide) hAnm
      · exact no_marker_in_keyline (by decide) hCnm
      · exact no_marker_in_keyline (by decide) hGnm
      · exact no_marker_in_keyline (by decide) hSnm
      · exact no_marker_in_keyline (by decide) hYnm
      · exact no_marker_in_keyline (by decide) hMnm
    have hhead : ∀ c, (joinSep (S "\n")
        [S "title: " ++ title, S "date: " ++ date, S "author: " ++ author,
         S "category: " ++ category, S "tags: " ++ joinSep (S ", ") tags,
         S "slug: " ++ slug, S "youtube_id: " ++ youtube_id,
         S "summary: " ++ summary]).head? = some c → c.isWhitespace = false := by
      intro c hc
      rw [head?_joinSep_cons (append_ne_nil_left (by decide)),
        head?_append_left _ (by decide)] at hc
      have hc' : some 't' = some c := hc
      obtain rfl := Option.some.inj hc'
      decide
    have hlast : ∀ c, (joinSep (S "\n")
        [S "title: " ++ title, S "date: " ++ date, S "author: " ++ author,
         S "category: " ++ category, S "tags: " ++ joinSep (S ", ") tags,
         S "slug: " ++ slug, S "youtube_id: " ++ youtube_id,
         S "summary: " ++ summary]).getLast? = some c → c.isWhitespace = false := by
      intro c hc
      rw [show ([S "title: " ++ title, S "date: " ++ date, S "author: " ++ author,
          S "category: " ++ category, S "tags: " ++ joinSep (S ", ") tags,
          S "slug: " ++ slug, S "youtube_id: " ++ youtube_id,
          S "summary: " ++ summary] : List Str)
        = [S "title: " ++ title, S "date: " ++ date, S "author: " ++ author,
           S "category: " ++ category, S "tags: " ++ joinSep (S ", ") tags,
           S "slug: " ++ slug, S "youtube_id: " ++ youtube_id]
          ++ [S "summary: " ++ summary] from rfl,
        getLast?_joinSep (by decide) (append_ne_nil_left (by decide)),
        getLast?_append_right hMne] at hc
      exact hMl c hc
    unfold assembled_doc
    rw [hfm, validate_joined_lines _ summary body (by simp) hnl hnm hhead hlast]
    have hparse : ([S "title: " ++ title, S "date: " ++ date, S "author: " ++ author,
        S "category: " ++ category, S "tags: " ++ joinSep (S ", ") tags,
        S "slug: " ++ slug, S "youtube_id: " ++ youtube_id,
        S "summary: " ++ summary] : List Str).filterMap parseFMLine
        = [(S "title", title), (S "date", date), (S "author", author),
           (S "category", category), (S "tags", joinSep (S ", ") tags),
           (S "slug", slug), (S "youtube_id", youtube_id), (S "summary", summary)] := by
      simp only [List.filterMap_cons, e1, e2, e3, e4, e5, e6, e7, e8, List.filterMap_nil]
    rw [hparse]
    refine ⟨?_, ?_, rfl, rfl, rfl, rfl, rfl, rfl, rfl⟩
    · show (!title.isEmpty && !date.isEmpty && !author.isEmpty) = true
      rw [isEmpty_false_of_ne hTne, isEmpty_false_of_ne hDne, isEmpty_false_of_ne hAne]
      rfl
    · show ((S "\"").isPrefixOf title && (S "\"").isSuffixOf title) = false
      rw [isPrefixOf_quote_false hTne (fun c hc he => hQh c hc (Or.inl he))]
      rfl
  · -- with thumbnail: nine lines
    have hB := hI im rfl
    obtain ⟨hBne, hBnl, hBnm, hBh, hBl⟩ := benignVal_spec hB
    have e9 : parseFMLine (S "image: " ++ im) = some (S "image", im) :=
      parseFMLine_keyline (K := S "image") (v := im) (by decide) (by decide)
        (keyHead_cond rfl (by decide) (by decide)) (by decide) hB
    have hfm : create_front_matter_ai title date author category tags slug youtube_id
        summary (some im)
        = joinSep (S "\n")
            [S "title: " ++ title, S "date: " ++ date, S "author: " ++ author,
             S "category: " ++ category, S "tags: " ++ joinSep (S ", ") tags,
             S "slug: " ++ slug, S "youtube_id: " ++ youtube_id,
             S "summary: " ++ summary, S "image: " ++ im] ++ S "\n" := by
      unfold create_front_matter_ai
      rw [hstrip1, hstrip2]
      rfl
    have hnl : ∀ l ∈ ([S "title: " ++ title, S "date: " ++ date, S "author: " ++ author,
        S "category: " ++ category, S "tags: " ++ joinSep (S ", ") tags,
        S "slug: " ++ slug, S "youtube_id: " ++ youtube_id,
        S "summary: " ++ summary, S "image: " ++ im] : List Str), '\n' ∉ l := by
      intro l hl
      simp only [List.mem_cons, List.not_mem_nil, or_false] at hl
      rcases hl with rfl | rfl | rfl | rfl | rfl | rfl | rfl | rfl | rfl
      · exact not_mem_append (by decide) hTnl
      · exact not_mem_append (by decide) hDnl
      · exact not_mem_append (by decide) hAnl
      · exact not_mem_append (by decide) hCnl
      · exact not_mem_append (by decide) hGnl
      · exact not_mem_append (by decide) hSnl
      · exact not_mem_append (by decide) hYnl
      · exact not_mem_append (by decide) hMnl
      · exact not_mem_append (by decide) hBnl
    have hnm : ∀ l ∈ ([S "title: " ++ title, S "date: " ++ date, S "author: " ++ author,
        S "category: " ++ category, S "tags: " ++ joinSep (S ", ") tags,
        S "slug: " ++ slug, S "youtube_id: " ++ youtube_id,
        S "summary: " ++ summary, S "image: " ++ im] : List Str), ¬ (S "---") <:+: l := by
      intro l hl
      simp only [List.mem_cons, List.not_mem_nil, or_false] at hl
      rcases hl with rfl | rfl | rfl | rfl | rfl | rfl | rfl | rfl | rfl
      · exact no_marker_in_keyline (by decide) hTnm
      · exact no_marker_in_keyline (by decide) hDnm
      · exact no_marker_in_keyline (by decide) hAnm
      · exact no_marker_in_keyline (by decide) hCnm
      · exact no_marker_in_keyline (by decide) hGnm
      · exact no_marker_in_keyline (by decide) hSnm
      · exact no_marker_in_keyline (by decide) hYnm
      · exact no_marker_in_keyline (by decide) hMnm
      · exact no_marker_in_keyline (by decide) hBnm
    have hhead : ∀ c, (joinSep (S "\n")
        [S "title: " ++ title, S "date: " ++ date, S "author: " ++ author,
         S "category: " ++ category, S "tags: " ++ joinSep (S ", ") tags,
         S "slug: " ++ slug, S "youtube_id: " ++ youtube_id,
         S "summary: " ++ summary, S "image: " ++ im]).head? = some c
        → c.isWhitespace = false := by
      intro c hc
      rw [head?_joinSep_cons (append_ne_nil_left (by decide)),
        head?_append_left _ (by decide)] at hc
      have hc' : some 't' = some c := hc
      obtain rfl := Option.some.inj hc'
      decide
    have hlast : ∀ c, (joinSep (S "\n")
        [S "title: " ++ title, S "date: " ++ date, S "author: " ++ author,
         S "category: " ++ category, S "tags: " ++ joinSep (S ", ") tags,
         S "slug: " ++ slug, S "youtube_id: " ++ youtube_id,
         S "summary: " ++ summary, S "image: " ++ im]).getLast? = some c
        → c.isWhitespace = false := by
      intro c hc
      rw [show ([S "title: " ++ title, S "date: " ++ date, S "author: " ++ author,
          S "category: " ++ category, S "tags: " ++ joinSep (S ", ") tags,
          S "slug: " ++ slug, S "youtube_id: " ++ youtube_id,
          S "summary: " ++ summary, S "image: " ++ im] : List Str)
        = [S "title: " ++ title, S "date: " ++ date, S "author: " ++ author,
           S "category: " ++ category, S "tags: " ++ joinSep (S ", ") tags,
           S "slug: " ++ slug, S "youtube_id: " ++ youtube_id,
           S "summary: " ++ summary]
          ++ [S "image: " ++ im] from rfl,
        getLast?_joinSep (by decide) (append_ne_nil_left (by decide)),
        getLast?_append_right hBne] at hc
      exact hBl c hc
    unfold assembled_doc
    rw [hfm, validate_joined_lines _ summary body (by simp) hnl hnm hhead hlast]
    have hparse : ([S "title: " ++ title, S "date: " ++ date, S "author: " ++ author,
        S "category: " ++ category, S "tags: " ++ joinSep (S ", ") tags,
        S "slug: " ++ slug, S "youtube_id: " ++ youtube_id,
        S "summary: " ++ summary, S "image: " ++ im] : List Str).filterMap parseFMLine
        = [(S "title", title), (S "date", date), (S "author", author),
           (S "category", category), (S "tags", joinSep (S ", ") tags),
           (S "slug", slug), (S "youtube_id", youtube_id), (S "summary", summary),
           (S "image", im)] := by
      simp only [List.filterMap_cons, e1, e2, e3, e4, e5, e6, e7, e8, e9,
        List.filterMap_nil]
    rw [hparse]
    refine ⟨?_, ?_, rfl, rfl, rfl, rfl, rfl, rfl, rfl⟩
    · show (!title.isEmpty && !date.isEmpty && !author.isEmpty) = true
      rw [isEmpty_false_of_ne hTne, isEmpty_false_of_ne hDne, isEmpty_false_of_ne hAne]
      rfl
    · show ((S "\"").isPrefixOf title && (S "\"").isSuffixOf title) = false
      rw [isPrefixOf_quote_false hTne (fun c hc he => hQh c hc (Or.inl he))]
      rfl

/-- C6 (counterexample): for the title «'"Quoted"'» (wrapped in single quotes
that themselves wrap double quotes), _create_front_matter's strip('"') is a
no-op and strip("'") then exposes the double quotes, so the document stores and
the parser recovers «"Quoted"»: the recovered title is wrapped in quote
characters (the validator's quoted-title warning fires) and is not the value
used to construct the document. -/
theorem C6_counterexample :
    (validate_front_matter (assembled_doc (S "'\"Quoted\"'") (S "2024-01-01T00:00:00")
        (S "AI Generated") (S "General") [S "tips"] (S "my-slug-aaaaaaaa")
        (S "aaaaaaaaaaa") (S "A good summary.") (S "Body text.") none)).titleQuoted = true
    ∧ fmLookup (validate_front_matter (assembled_doc (S "'\"Quoted\"'")
        (S "2024-01-01T00:00:00") (S "AI Generated") (S "General") [S "tips"]
        (S "my-slug-aaaaaaaa") (S "aaaaaaaaaaa") (S "A good summary.") (S "Body text.")
        none)).entries (S "title")
      = some (S "\"Quoted\"")
    ∧ ¬ fmLookup (validate_front_matter (assembled_doc (S "'\"Quoted\"'")
        (S "2024-01-01T00:00:00") (S "AI Generated") (S "General") [S "tips"]
        (S "my-slug-aaaaaaaa") (S "aaaaaaaaaaa") (S "A good summary.") (S "Body text.")
        none)).entries (S "title")
      = some (S "'\"Quoted\"'") := by decide

/-- Witness for C6 at concrete benign field values. -/
theorem C6_front_matter_roundtrip_witness :
    (validate_front_matter (assembled_doc (S "My Title") (S "2024-01-01T00:00:00")
        (S "AI Generated") (S "General") [S "tips", S "coding"] (S "my-title-aaaaaaaa")
        (S "aaaaaaaaaaa") (S "A good summary.") (S "Body text.") none)).valid = true
    ∧ fmLookup (validate_front_matter (assembled_doc (S "My Title")
        (S "2024-01-01T00:00:00") (S "AI Generated") (S "General")
        [S "tips", S "coding"] (S "my-title-aaaaaaaa") (S "aaaaaaaaaaa")
        (S "A good summary.") (S "Body text.") none)).entries (S "title")
      = some (S "My Title")
    ∧ (validate_front_matter (assembled_doc (S "My Title") (S "2024-01-01T00:00:00")
        (S "AI Generated") (S "General") [S "tips", S "coding"] (S "my-title-aaaaaaaa")
        (S "aaaaaaaaaaa") (S "A good summary.") (S "Body text.") none)).titleQuoted
      = false := by
  have h := C6_front_matter_roundtrip (S "My Title") (S "2024-01-01T00:00:00")
    (S "AI Generated") (S "General") (S "my-title-aaaaaaaa") (S "aaaaaaaaaaa")
    (S "A good summary.") (S "Body text.") [S "tips", S "coding"] none
    (by decide) (by decide) (by decide) (by decide) (by decide) (by decide)
    (by decide) (by decide) (by decide) (fun im him => by cases him)
  exact ⟨h.1, h.2.2.1, h.2.1⟩

end Spark
